import Mathlib

/-! # online2epub: reading order, package documents and alternative titles

A shallow embedding of `azdl.go` (the page loop of `createAzanEpub`, `cheapExerpt`,
`clean`) and of `templates/templates.go` (the regular expressions, the `Bildnamen`
replacer, the `navpoint` counter and the `ContentOPF`, `ToC` and `NAV`
templates), followed by theorems about them.

Conventions of the embedding:
* Go `string` is `String`; the server's JSON is decoded to valid UTF-8, so a
  string is a list of code points.  `len(s)` is the UTF-8 byte count.
* Go `int` / `int64` is `Int` (no arithmetic that could overflow is performed
  on the modelled paths).
* The zero value of a struct is the structure with every field at its default;
  the Go field `Type` is written `Type_`, `Type` being a Lean keyword.
* The HTTP server is a record of functions from relative URL to response.
* A run-time panic of the Go program is the outcome `Outcome.panic`, a
  `log.Fatal` the outcome `Outcome.fatal`.
-/

namespace azdl

/-! ## Content model (`azdl.go`, lines 64-157) -/

/-- Go `type picture struct`. `Size` is filled from `saveFromURL`. -/
structure picture where
  ID : String := ""
  XStart : Int := 0
  XEnd : Int := 0
  YStart : Int := 0
  YEnd : Int := 0
  Area : Int := 0
  Width : Int := 0
  Height : Int := 0
  Type_ : String := ""
  Description : String := ""
  Size : Int := 0
deriving DecidableEq, Repr

/-- Go `type element struct`. -/
structure element where
  ID : String := ""
  XStart : Int := 0
  XEnd : Int := 0
  YStart : Int := 0
  YEnd : Int := 0
  Area : Int := 0
  Width : Int := 0
  Height : Int := 0
  Type_ : String := ""
  Title : String := ""
  Author : String := ""
  Underline : String := ""
  Headline : String := ""
  Location : String := ""
  AltTitle : String := ""
  Pictures : List picture := []
deriving DecidableEq, Repr

/-- Go `type seite struct`. -/
structure seite where
  ID : String := ""
  Title : String := ""
  Number : Int := 0
  Index : Int := 0
  Width : Int := 0
  Height : Int := 0
  Elements : List element := []
  Free : Bool := false
  Sequence : List element := []
deriving DecidableEq, Repr

/-- Go `type page struct`. -/
structure page where
  ID : String := ""
  Index : Int := 0
  Number : Int := 0
  Title : String := ""
deriving DecidableEq, Repr

/-- Go `type paper struct`. -/
structure paper where
  Paper : String := ""
  Date : String := ""
  Title : String := ""
  Page : page := {}
deriving DecidableEq, Repr

/-- Go `type link struct`. -/
structure link where
  ID : String := ""
  Paper : paper := {}
deriving DecidableEq, Repr

/-- Go `type article struct`. -/
structure article where
  ID : String := ""
  XStart : Int := 0
  XEnd : Int := 0
  YStart : Int := 0
  YEnd : Int := 0
  Area : Int := 0
  Width : Int := 0
  Height : Int := 0
  Type_ : String := ""
  Title : String := ""
  Author : String := ""
  Underline : String := ""
  Headline : String := ""
  Location : String := ""
  Pictures : List picture := []
  Paper : paper := {}
  Text : String := ""
  Sociallink : String := ""
  Print : String := ""
  Wordcount : Int := 0
  Prev : link := {}
  Next : link := {}
  AltTitle : String := ""
deriving DecidableEq, Repr

/-- Go `type pgInfo struct`. -/
structure pgInfo where
  Title : String := ""
  Index : Int := 0
deriving DecidableEq, Repr

/-- Go `type ausgabe struct`. -/
structure ausgabe where
  Paper : String := ""
  Title : String := ""
  Date : Int := 0
  Brand : String := ""
  Pages : Int := 0
  Titles : List String := []
  Subscription : Bool := false
  Bought : Bool := false
  Version : Int := 0
deriving DecidableEq, Repr

instance : Inhabited picture := ⟨{}⟩
instance : Inhabited element := ⟨{}⟩
instance : Inhabited seite := ⟨{}⟩
instance : Inhabited article := ⟨{}⟩

/-- Go `len(s)` of a string: the number of bytes of its UTF-8 encoding. -/
def len (s : String) : Nat := s.utf8ByteSize

/-- Go `strconv.Itoa` and the verb `%d`: signed decimal. -/
def Itoa (i : Int) : String := toString i

end azdl

/-! ## `templates/templates.go`: regular expressions and replacers

Each regular expression is embedded as the function its call site applies,
`re.ReplaceAllString(txt, repl)` with the replacement of that call site, on
the list of code points of the text. Go's `regexp` is leftmost-first; without
flags `.` is any code point but a line feed, `^` and `$` are the two ends of
the text, `\w` is `[0-9A-Za-z_]`, `\s` is `[\t\n\f\r ]` and `\b` is the ASCII
word boundary. -/

namespace templates

/-- The class `\w`. -/
def isWord (c : Char) : Bool :=
  (48 ≤ c.toNat && c.toNat ≤ 57) || (65 ≤ c.toNat && c.toNat ≤ 90) ||
    (97 ≤ c.toNat && c.toNat ≤ 122) || c.toNat == 95

/-- The class `\s`: tab, line feed, form feed, carriage return, space. -/
def isSpace (c : Char) : Bool :=
  c.toNat == 9 || c.toNat == 10 || c.toNat == 12 || c.toNat == 13 || c.toNat == 32

/-- What `.` matches: any code point but the line feed. -/
def isDot (c : Char) : Bool := c.toNat != 10

/-- The text after the literal `lit` when `s` starts with it. -/
def stripLit : List Char → List Char → Option (List Char)
  | [], s => some s
  | _ :: _, [] => none
  | l :: lit, c :: s => if l = c then stripLit lit s else none

/-- `KillFirstTag = ^<(\w+)\b[^>]*>` with the replacement of `cheapExerpt`, the
empty string. The pattern is anchored, so there is at most one match, at the
start: `<`, the longest run of word characters (one at least; `\b` forces the
run to be the longest one), then everything up to and including the first `>`. -/
def KillFirstTag (txt : List Char) : List Char :=
  match txt with
  | '<' :: rest =>
    if (rest.takeWhile isWord).isEmpty then txt
    else
      match (rest.dropWhile isWord).dropWhile (fun c => c != '>') with
      | '>' :: tail => tail
      | _ => txt
  | _ => txt

/-- Whether `</p>.*$` matches at the start of `s`: the literal, then no line
feed up to the end of the text. -/
def CutOffParagraphs.matchesAt (s : List Char) : Bool :=
  match stripLit "</p>".toList s with
  | some rest => rest.all isDot
  | none => false

/-- `CutOffParagraphs = </p>.*$` with the replacement of `cheapExerpt`, the
empty string: the leftmost position at which the pattern matches; the match
runs to the end of the text, so the text is cut there. -/
def CutOffParagraphs : List Char → List Char
  | [] => []
  | c :: rest =>
    if CutOffParagraphs.matchesAt (c :: rest) then [] else c :: CutOffParagraphs rest

/-- The text after the match of `.*?lit` at the start of `s`: the first
occurrence of `lit` that is not preceded by a line feed. -/
def lazyUntil (lit : List Char) : List Char → Option (List Char)
  | [] => stripLit lit []
  | c :: rest =>
    match stripLit lit (c :: rest) with
    | some after => some after
    | none => if isDot c then lazyUntil lit rest else none

/-- `RemoveLocationMark = ^<b\s+class="ortsmarke">.*?</b>\s*` with the
replacement of `cheapExerpt`, the empty string (anchored: one match at most). -/
def RemoveLocationMark (txt : List Char) : List Char :=
  match stripLit "<b".toList txt with
  | none => txt
  | some r1 =>
    if (r1.takeWhile isSpace).isEmpty then txt
    else
      match stripLit "class=\"ortsmarke\">".toList (r1.dropWhile isSpace) with
      | none => txt
      | some r2 =>
        match lazyUntil "</b>".toList r2 with
        | none => txt
        | some r3 => r3.dropWhile isSpace

/-- Go `(*Regexp).ReplaceAllString` for a pattern that never matches the empty
string and whose match at a position depends only on the text from there on.
`m s` is, for the text `s` from the current position, the expanded replacement
of the match that starts there and the text after that match. The first
argument bounds the number of steps; every step consumes a code point, so
`length txt` steps suffice. -/
def ReplaceAllString (m : List Char → Option (List Char × List Char)) :
    Nat → List Char → List Char
  | 0, txt => txt
  | _ + 1, [] => []
  | n + 1, c :: rest =>
    match m (c :: rest) with
    | some (repl, after) => repl ++ ReplaceAllString m n after
    | none => c :: ReplaceAllString m n rest

/-- The match of `RemoveTags = <[^>]+>` at the start of `s` (replacement: the
empty string): `<`, one code point or more up to the next `>`, and that `>`. -/
def RemoveTags.matchAt (s : List Char) : Option (List Char × List Char) :=
  match s with
  | '<' :: rest =>
    if (rest.takeWhile (fun c => c != '>')).isEmpty then none
    else
      match rest.dropWhile (fun c => c != '>') with
      | '>' :: tail => some ([], tail)
      | _ => none
  | _ => none

/-- `RemoveTags.ReplaceAllString(txt, "")`. -/
def RemoveTags (txt : List Char) : List Char :=
  ReplaceAllString RemoveTags.matchAt txt.length txt

/-- `Shorten = ^(.{0,40}\S*).*` with the replacement of `cheapExerpt`,
`$1…`. The pattern always matches at the start: group 1 is up to 40 code
points of the first line followed by the non-space code points that continue
them, and the match runs to the end of the first line. The replacement is
group 1 and the ellipsis; the text from the first line feed on is kept. -/
def Shorten (txt : List Char) : List Char :=
  let line := txt.takeWhile isDot
  let rest := txt.dropWhile isDot
  line.take 40 ++ (line.drop 40).takeWhile (fun c => !isSpace c) ++ ['…'] ++ rest

/-- The text after the match of `\starget=".*?"` at the start of `s`: one
white-space code point, the literal `target="`, and the shortest run without
line feed up to the next `"`. -/
def NoLinkTarget.target (s : List Char) : Option (List Char) :=
  match s with
  | c :: t =>
    if isSpace c then
      match stripLit "target=\"".toList t with
      | some u => lazyUntil "\"".toList u
      | none => none
    else none
  | [] => none

/-- The match of `[^>]*\starget=".*?"` at the start of `s`, the star being
greedy: the code points the star takes (as many as a match allows) and the
text after the match. -/
def NoLinkTarget.greedy : List Char → Option (List Char × List Char)
  | [] => none
  | c :: rest =>
    match (if c != '>' then NoLinkTarget.greedy rest else none) with
    | some (g, after) => some (c :: g, after)
    | none =>
      match NoLinkTarget.target (c :: rest) with
      | some after => some ([], after)
      | none => none

/-- The match of `NoLinkTarget = (<a\b[^>]*)\starget=".*?"` at the start of `s`
with the replacement of `clean`, `$1`: group 1 is `<a`, which a word
character must not follow, and what the star takes. -/
def NoLinkTarget.matchAt (s : List Char) : Option (List Char × List Char) :=
  match s with
  | '<' :: 'a' :: rest =>
    match rest with
    | [] => none
    | c :: _ =>
      if isWord c then none
      else
        match NoLinkTarget.greedy rest with
        | some (g, after) => some ('<' :: 'a' :: g, after)
        | none => none
  | _ => none

/-- `NoLinkTarget.ReplaceAllString(txt, "$1")`. -/
def NoLinkTarget (txt : List Char) : List Char :=
  ReplaceAllString NoLinkTarget.matchAt txt.length txt

/-- The match of `MTbr = <(br)\s*>` at the start of `s` with the replacement of
`clean`, `$1`: group 1 is `br`. -/
def MTbr.matchAt (s : List Char) : Option (List Char × List Char) :=
  match s with
  | '<' :: 'b' :: 'r' :: rest =>
    match rest.dropWhile isSpace with
    | '>' :: tail => some ("br".toList, tail)
    | _ => none
  | _ => none

/-- `MTbr.ReplaceAllString(txt, "$1")`. -/
def MTbr (txt : List Char) : List Char :=
  ReplaceAllString MTbr.matchAt txt.length txt

/-- The pairs of `Bildnamen = strings.NewReplacer(...)`, in argument order. -/
def Bildnamen.oldnew : List (String × String) :=
  [("Bild 296 × 591", "Festgeld"),
   ("Bild 1024 × 460", "DAX"),
   ("Bild 1024 × 360", "Rätsel Ecke"),
   ("Bild 1024 × 361", "Rätsel Ecke"),
   ("Bild 1024 × 388", "Popel"),
   ("Bild 1024 × 788", "Wetter"),
   ("Bild 361 × 818", "Kinder-Sudoku"),
   ("Bild 1024 × 411", "Finde die Unterschiede")]

/-- The first pair, in argument order, whose old string starts the text. -/
def lookup : List (String × String) → List Char → Option (List Char × List Char)
  | [], _ => none
  | (old, new) :: more, s =>
    match stripLit old.toList s with
    | some after => some (new.toList, after)
    | none => lookup more s

/-- Go `(*strings.Replacer).Replace` of the generic replacer (no old string is
empty): scanning from the left, at each position the first matching pair in
argument order is replaced and the scan goes on after it. -/
def Replace (oldnew : List (String × String)) (s : String) : String :=
  String.mk (ReplaceAllString (lookup oldnew) s.length s.toList)

/-- `Bildnamen.Replace`. -/
def Bildnamen (s : String) : String := Replace Bildnamen.oldnew s

end templates

namespace azdl

/-- The four-stage stripping of `cheapExerpt` (lines 528-535), innermost first:
`KillFirstTag`, `CutOffParagraphs`, `RemoveLocationMark`, `RemoveTags`. -/
def strip (txt : String) : String :=
  String.mk (templates.RemoveTags (templates.RemoveLocationMark
    (templates.CutOffParagraphs (templates.KillFirstTag txt.toList))))

/-- Lines 536-540 of `cheapExerpt`: texts of more than 40 bytes are shortened. -/
def shortenIfLong (txt : String) : String :=
  if len txt > 40 then String.mk (templates.Shorten txt.toList) else txt

/-- Go `cheapExerpt`: the alternative title of an article. -/
def cheapExerpt (artikel : article) : String :=
  if artikel.Title ≠ "" then artikel.Title
  else if artikel.Text = "" then
    match artikel.Pictures with
    | [] => "Leerer Artikel"
    | first :: _ =>
      if first.Description = "" then
        templates.Bildnamen ("Bild " ++ Itoa artikel.Width ++ " × " ++ Itoa artikel.Height)
      else shortenIfLong (strip first.Description)
  else shortenIfLong (strip artikel.Text)

/-- Go `clean` (lines 486-496): the three rewrites of the body, innermost
first. `templates.Ortsmarke` is used by `clean` but not declared in
`templates.go`; its `ReplaceAllString(·, "$1$3$2")` is the parameter `Ortsmarke`. -/
def clean (Ortsmarke : String → String) (artikel : article) : article :=
  { artikel with
    Text := Ortsmarke (String.mk (templates.MTbr (templates.NoLinkTarget artikel.Text.toList))) }

end azdl

/-! ## `azdl.go`: the page loop of `createAzanEpub` (lines 253-372) -/

namespace azdl

/-- The outcome of a piece of Go code: it returns, it panics (an index out of
range), or it ends the program with `log.Fatal`. `fuel` is the outcome of a
loop of the embedding that was given too few steps; the walk is run with
enough steps (`walk_no_fuel`). -/
inductive Outcome (α : Type) where
  | done (a : α)
  | panic
  | fatal
  | fuel
deriving DecidableEq, Repr

/-- The external server: the decoded answers of `c.getJSON` for an issue, for a
page and for an article, and the size `c.saveFromURL` returns, each by
relative URL. -/
structure Server where
  getAusgabe : String → ausgabe
  getSeite : String → seite
  getArtikel : String → article
  saveFromURL : String → Int

/-- Go `m[k] = v` on a `map[string]int`, kept as a list of pairs with
distinct keys: an existing key gets the new value, a new key a new entry. -/
def mapAssign : List (String × Nat) → String → Nat → List (String × Nat)
  | [], k, v => [(k, v)]
  | (k0, v0) :: m, k, v => if k0 = k then (k, v) :: m else (k0, v0) :: mapAssign m k v

/-- Go `v, ok = m[k]`: `none` is `ok == false`. -/
def mapLookup : List (String × Nat) → String → Option Nat
  | [], _ => none
  | (k0, v0) :: m, k => if k0 = k then some v0 else mapLookup m k

/-- The variables of one page of the loop: the page's elements (their
`AltTitle` and `Pictures` are assigned in the loop), `ersterArtikel`,
`id2idx` and `idx2next`. -/
structure PageVars where
  Elements : List element
  ersterArtikel : Int
  id2idx : List (String × Nat)
  idx2next : List String
deriving DecidableEq, Repr

/-- The head test of line 320 on a fetched article. -/
def isFirst (artikel : article) : Bool :=
  artikel.Prev.ID = "" || artikel.Prev.Paper.Page.Index < artikel.Paper.Page.Index

/-- The pictures of an article after lines 299-305: every picture's `Size` is
what `saveFromURL` returned for it. -/
def fetchPictures (srv : Server) (seitenURL : String) (pictures : List picture) :
    List picture :=
  pictures.map (fun p => { p with Size := srv.saveFromURL (seitenURL ++ "/" ++ p.ID ++ "/jpg") })

/-- One iteration of `for idx, element := range dieseSeite.Elements`
(lines 277-327). Only elements of type `article` do anything. -/
def elementStep (srv : Server) (seitenURL : String) (v : PageVars) (idx : Nat)
    (element : element) : PageVars :=
  if element.Type_ = "article" then
    let artikel := srv.getArtikel (seitenURL ++ "/" ++ element.ID)
    let altTitle := cheapExerpt artikel
    { Elements := v.Elements.modify
        (fun e => { e with AltTitle := altTitle,
                           Pictures := fetchPictures srv seitenURL artikel.Pictures }) idx
      id2idx := mapAssign v.id2idx artikel.ID idx
      idx2next := v.idx2next.set idx artikel.Next.ID
      ersterArtikel :=
        if v.ersterArtikel < 0 && isFirst artikel then (idx : Int) else v.ersterArtikel }
  else v

/-- The loop over the elements, from position `idx` on. -/
def elementLoop (srv : Server) (seitenURL : String) :
    PageVars → Nat → List element → PageVars
  | v, _, [] => v
  | v, idx, element :: rest =>
    elementLoop srv seitenURL (elementStep srv seitenURL v idx element) (idx + 1) rest

/-- The variables before the loop (lines 267-274) and after it. -/
def pageVars (srv : Server) (seitenURL : String) (Elements : List element) : PageVars :=
  elementLoop srv seitenURL
    { Elements := Elements, ersterArtikel := -1, id2idx := [],
      idx2next := List.replicate Elements.length "" } 0 Elements

/-- The loop `for i := 0; art >= 0; i++` of lines 331-341, entered with
`art >= 0`. Indexing a slice out of range panics. The first argument bounds
the number of iterations. -/
def walk (Elements : List element) (idx2next : List String) (id2idx : List (String × Nat)) :
    Nat → List element → Nat → Nat → Outcome (List element)
  | 0, _, _, _ => Outcome.fuel
  | steps + 1, Sequence, i, art =>
    if i < Sequence.length then
      match Elements[art]?, idx2next[art]? with
      | some e, some nextID =>
        if nextID = "" then Outcome.done (Sequence.set i e)
        else
          match mapLookup id2idx nextID with
          | some next => walk Elements idx2next id2idx steps (Sequence.set i e) (i + 1) next
          | none => Outcome.done (Sequence.set i e)
      | _, _ => Outcome.panic
    else Outcome.panic

/-- Lines 329-341: the Sequence of a page from the variables of its loop. An
iteration with `i = len(Sequence)` panics, so `len(Sequence) + 1` iterations
are enough. -/
def resolveSequence (v : PageVars) : Outcome (List element) :=
  let Sequence : List element := List.replicate v.id2idx.length default
  if v.ersterArtikel < 0 then Outcome.done Sequence
  else walk v.Elements v.idx2next v.id2idx (Sequence.length + 1) Sequence 0 v.ersterArtikel.toNat

/-- Go `seitenURL := strdate + "/" + strconv.Itoa(i)`. -/
def seitenURL (strdate : String) (i : Nat) : String := strdate ++ "/" ++ Itoa i

/-- One iteration of the loop over the pages, up to the page's Sequence
(lines 256-341): the page as the templates get it. -/
def resolveSeite (srv : Server) (strdate : String) (i : Nat) : Outcome seite :=
  let dieseSeite := srv.getSeite (seitenURL strdate i)
  let v := pageVars srv (seitenURL strdate i) dieseSeite.Elements
  match resolveSequence v with
  | Outcome.done Sequence =>
    Outcome.done { dieseSeite with Elements := v.Elements, Sequence := Sequence }
  | Outcome.panic => Outcome.panic
  | Outcome.fatal => Outcome.fatal
  | Outcome.fuel => Outcome.fuel

/-- Lines 345-354: `nextPage` and `prevPage` of page `i`. Indexing
`zeitung.Titles` out of range panics. -/
def neighbours (zeitung : ausgabe) (i : Nat) : Outcome (pgInfo × pgInfo) :=
  let nextPage : Option pgInfo :=
    if (i : Int) + 1 < zeitung.Pages then
      (zeitung.Titles[i + 1]?).map (fun t => { Index := (i : Int) + 1, Title := t })
    else some {}
  let prevPage : Option pgInfo :=
    if i > 0 then
      (zeitung.Titles[i - 1]?).map (fun t => { Index := (i : Int) - 1, Title := t })
    else some {}
  match nextPage, prevPage with
  | some n, some p => Outcome.done (n, p)
  | _, _ => Outcome.panic

/-- The pages `i, i+1, ...` of the loop `for i := 0; i < zeitung.Pages; i++`,
`n` of them. -/
def seitenLoop (srv : Server) (zeitung : ausgabe) (strdate : String) :
    Nat → Nat → Outcome (List seite)
  | 0, _ => Outcome.done []
  | n + 1, i =>
    match resolveSeite srv strdate i with
    | Outcome.done s =>
      match neighbours zeitung i with
      | Outcome.done _ =>
        match seitenLoop srv zeitung strdate n (i + 1) with
        | Outcome.done rest => Outcome.done (s :: rest)
        | Outcome.panic => Outcome.panic
        | Outcome.fatal => Outcome.fatal
        | Outcome.fuel => Outcome.fuel
      | Outcome.panic => Outcome.panic
      | Outcome.fatal => Outcome.fatal
      | Outcome.fuel => Outcome.fuel
    | Outcome.panic => Outcome.panic
    | Outcome.fatal => Outcome.fatal
    | Outcome.fuel => Outcome.fuel

/-- Go `createAzanEpub` up to the slice `seiten` it hands to the templates `ToC`,
`ContentOPF` and `NAV` (`data.Seiten`, lines 375-390). An issue that is neither
subscribed nor bought ends the run (line 209); `make([]*seite, zeitung.Pages)`
panics on a negative length. -/
def createAzanEpub (srv : Server) (wantedDate : String) : Outcome (List seite) :=
  let zeitung := srv.getAusgabe wantedDate
  if !zeitung.Subscription && !zeitung.Bought then Outcome.fatal
  else if zeitung.Pages < 0 then Outcome.panic
  else seitenLoop srv zeitung (Itoa zeitung.Date) zeitung.Pages.toNat 0

/-! ### Notions the theorems about the page loop are stated with -/

/-- The article the loop fetches for an element (line 283). -/
def artikelOf (srv : Server) (seitenURL : String) (e : element) : article :=
  srv.getArtikel (seitenURL ++ "/" ++ e.ID)

/-- An element qualifies as head: it is of type `article` and its fetched
article has an empty previous id or a previous link to an earlier page. -/
def qualifies (srv : Server) (seitenURL : String) (e : element) : Prop :=
  e.Type_ = "article" ∧
    ((artikelOf srv seitenURL e).Prev.ID = "" ∨
      (artikelOf srv seitenURL e).Prev.Paper.Page.Index < (artikelOf srv seitenURL e).Paper.Page.Index)

instance (srv : Server) (seitenURL : String) (e : element) :
    Decidable (qualifies srv seitenURL e) := by
  unfold qualifies; infer_instance

/-- The ids of the articles fetched for the article-typed elements, in element order. -/
def articleIDs (srv : Server) (seitenURL : String) (Elements : List element) : List String :=
  (Elements.filter (fun e => e.Type_ = "article")).map (fun e => (artikelOf srv seitenURL e).ID)

/-- `idx2next[p]` of a page. -/
def PageVars.nextID (v : PageVars) (p : Nat) : String := v.idx2next[p]?.getD ""

/-- `dieseSeite.Elements[p]` of a page after the loop over its elements. -/
def PageVars.elementAt (v : PageVars) (p : Nat) : element := v.Elements[p]?.getD default

/-- The positions `ps` are the walk from position `art`: `ps` starts with
`art`; each further position is the one the id->position map gives for the
next-id of the position before it, that next-id being non-empty; and at the
last position the next-id is empty or is not a key of the map. -/
def follows (v : PageVars) : Nat → List Nat → Prop
  | _, [] => False
  | art, [p] => p = art ∧ (v.nextID art = "" ∨ mapLookup v.id2idx (v.nextID art) = none)
  | art, p :: q :: ps =>
    p = art ∧ v.nextID art ≠ "" ∧ mapLookup v.id2idx (v.nextID art) = some q ∧
      follows v q (q :: ps)

/-- The positions `ps` are a beginning of the walk from position `art`: `ps`
starts with `art` and each further position is the one the id->position map
gives for the non-empty next-id of the position before it. -/
def path (v : PageVars) : Nat → List Nat → Prop
  | _, [] => False
  | art, [p] => p = art
  | art, p :: q :: ps =>
    p = art ∧ v.nextID art ≠ "" ∧ mapLookup v.id2idx (v.nextID art) = some q ∧
      path v q (q :: ps)

/-- The server `srv` with the paper (and with it the page index) of every
next link replaced: the answer to the article URL `u` gets `f u` there. -/
def relinkNext (srv : Server) (f : String → paper) : Server :=
  { srv with
    getArtikel := fun u =>
      { srv.getArtikel u with Next := { ID := (srv.getArtikel u).Next.ID, Paper := f u } } }

/-- The positions recorded for a page are positions of the page. -/
def PageVars.valid (v : PageVars) : Prop :=
  v.idx2next.length = v.Elements.length ∧
    (∀ k j, mapLookup v.id2idx k = some j → j < v.Elements.length) ∧
    v.ersterArtikel < (v.Elements.length : Int)

end azdl

/-! ## `templates/templates.go`: the package documents

A template's output is embedded as the list of the entries it writes, in
document order, each with the attribute values the claims are about. -/

namespace templates
open azdl

/-- An `<item href=… id=… media-type=…/>` of the manifest. -/
structure item where
  href : String
  id : String
  mediaType : String
deriving DecidableEq, Repr

/-- The items `{{range .Pictures}}{{if .Size}}…` writes for an element. -/
def ContentOPF.pictureItems (e : element) : List item :=
  (e.Pictures.filter (fun p => p.Size ≠ 0)).map
    (fun p => ⟨"images/" ++ p.ID ++ ".jpg", "image_" ++ p.ID, "image/jpeg"⟩)

/-- The items `{{range .Sequence}}` writes for one element of a page. -/
def ContentOPF.articleItems (pgidx : Int) (e : element) : List item :=
  ⟨"article_" ++ e.ID ++ ".xhtml", "article_" ++ Itoa pgidx ++ "_" ++ e.ID,
    "application/xhtml+xml"⟩ :: ContentOPF.pictureItems e

/-- The items `{{range .Seiten}}` writes for one page. -/
def ContentOPF.seiteItems (s : seite) : List item :=
  ⟨"seite_" ++ Itoa s.Index ++ ".xhtml", "seite_" ++ Itoa s.Index, "application/xhtml+xml"⟩ ::
    s.Sequence.flatMap (ContentOPF.articleItems s.Index)

/-- The `<manifest>` of `ContentOPF` (lines 48-71). -/
def ContentOPF.manifest (Seiten : List seite) : List item :=
  [⟨"toc.ncx", "ncx", "application/x-dtbncx+xml"⟩,
   ⟨"title.xhtml", "title", "application/xhtml+xml"⟩,
   ⟨"index.xhtml", "index", "application/xhtml+xml"⟩] ++
  Seiten.flatMap ContentOPF.seiteItems ++
  [⟨"navigation.xhtml", "navigation", "application/xhtml+xml"⟩,
   ⟨"impressum.xhtml", "imprint", "application/xhtml+xml"⟩,
   ⟨"images/title.jpg", "titleImage", "image/jpeg"⟩,
   ⟨"zva.epub.css", "epub-stylesheet", "text/css"⟩]

/-- The idrefs `{{range .Seiten}}` writes into the spine for one page. -/
def ContentOPF.seiteRefs (s : seite) : List String :=
  ("seite_" ++ Itoa s.Index) ::
    s.Sequence.map (fun e => "article_" ++ Itoa s.Index ++ "_" ++ e.ID)

/-- The idrefs of the `<spine>` of `ContentOPF` (lines 73-85). -/
def ContentOPF.spine (Seiten : List seite) : List String :=
  ["title", "index"] ++ Seiten.flatMap ContentOPF.seiteRefs ++ ["imprint"]

/-- What a call of the `navpoint` closure writes. -/
inductive ncx where
  | navPoint (id : String) (playOrder : Nat)
  | navPointEnd
  | content (src : String)
deriving DecidableEq, Repr

/-- Go `strings.Replace(s, "-", "_", -1)`. -/
def dashes (s : String) : String :=
  String.mk (s.toList.map (fun c => if c = '-' then '_' else c))

/-- The closure of `funcMap["navpoint"]` (lines 23-32): `i` is the captured
counter; the result is the counter after the call and the tag written. -/
def navpoint (i : Nat) (id : List String) : Nat × ncx :=
  match id with
  | [] => (i, ncx.navPointEnd)
  | id0 :: _ => (i + 1, ncx.navPoint (dashes id0) (i + 1))

/-- The body of `{{range .Sequence}}` in `ToC` (lines 203-211), from counter `i`. -/
def ToC.rangeSequence : Nat → List element → Nat × List ncx
  | i, [] => (i, [])
  | i, e :: rest =>
    let id := "article_" ++ e.ID
    let o := navpoint i [id]
    let c := navpoint o.1 []
    let r := ToC.rangeSequence c.1 rest
    (r.1, o.2 :: ncx.content (id ++ ".xhtml") :: c.2 :: r.2)

/-- The body of `{{range .Seiten}}` in `ToC` (lines 196-213), from counter `i`. -/
def ToC.rangeSeiten : Nat → List seite → Nat × List ncx
  | i, [] => (i, [])
  | i, s :: rest =>
    let o := navpoint i ["seite_" ++ Itoa s.Index]
    let q := ToC.rangeSequence o.1 s.Sequence
    let c := navpoint q.1 []
    let r := ToC.rangeSeiten c.1 rest
    (r.1, o.2 :: ncx.content ("seite_" ++ Itoa s.Index ++ ".xhtml") :: (q.2 ++ c.2 :: r.2))

/-- The `<navMap>` of `ToC` (lines 183-220); `{{$navpoint := navpoint}}` makes a
fresh closure, whose counter starts at 0. -/
def ToC (Seiten : List seite) : List ncx :=
  let o1 := navpoint 0 ["startseite"]
  let c1 := navpoint o1.1 []
  let o2 := navpoint c1.1 ["Inhalt"]
  let c2 := navpoint o2.1 []
  let p := ToC.rangeSeiten c2.1 Seiten
  let o3 := navpoint p.1 ["Impressum"]
  let c3 := navpoint o3.1 []
  [o1.2, ncx.content "title.xhtml", c1.2, o2.2, ncx.content "index.xhtml", c2.2] ++ p.2 ++
    [o3.2, ncx.content "impressum.xhtml", c3.2]

/-- The playOrder values of an NCX document, in document order. -/
def playOrders : List ncx → List Nat
  | [] => []
  | ncx.navPoint _ n :: rest => n :: playOrders rest
  | _ :: rest => playOrders rest

/-- The `src` of the `<content>` elements of an NCX document. -/
def contentSrcs : List ncx → List String
  | [] => []
  | ncx.content src :: rest => src :: contentSrcs rest
  | _ :: rest => contentSrcs rest

/-- The hrefs `{{range .Seiten}}` writes for one page in `NAV` (lines 237-249). -/
def NAV.seiteLinks (s : seite) : List String :=
  ("seite_" ++ Itoa s.Index ++ ".xhtml") ::
    (if s.Sequence ≠ [] then s.Sequence.map (fun e => "article_" ++ e.ID ++ ".xhtml") else [])

/-- The hrefs of the links of `NAV` (lines 234-251), in document order. -/
def NAV (Seiten : List seite) : List String :=
  ["title.xhtml", "index.xhtml"] ++ Seiten.flatMap NAV.seiteLinks ++ ["impressum.xhtml"]

/-- The part of the page template `Seite` under `{{if .Seite.Sequence}}`
(lines 115-136): the hrefs of the entries, or the online-only notice. -/
inductive SeiteBody where
  | entries (hrefs : List String)
  | onlineonly
deriving DecidableEq, Repr

/-- The branch `Seite` takes for a page. -/
def Seite (s : seite) : SeiteBody :=
  if s.Sequence ≠ [] then SeiteBody.entries (s.Sequence.map (fun e => "article_" ++ e.ID ++ ".xhtml"))
  else SeiteBody.onlineonly

/-! ### Notions the theorems about the package documents are stated with -/

/-- The number of navigation entries of the pages: one for each page and one
for each slot of its Sequence. -/
def entries (Seiten : List seite) : Nat :=
  (Seiten.map (fun s => 1 + s.Sequence.length)).sum

/-- The targets of the navigation entries of one page. -/
def navTargets (s : seite) : List String :=
  ("seite_" ++ Itoa s.Index ++ ".xhtml") :: s.Sequence.map (fun e => "article_" ++ e.ID ++ ".xhtml")

/-- The first `n` code points of a string. -/
def lead (n : Nat) (s : String) : List Char := s.toList.take n

/-- The first six code points of the ids that occur in a spine. -/
def spineLeads : List (List Char) :=
  [lead 6 "title", lead 6 "index", lead 6 "imprint", lead 6 "seite_", lead 6 "article_"]

end templates

/-! ## Concrete pages and servers -/

namespace azdl

/-- A one-page issue of 2020-08-20, subscribed. -/
def issue1 : ausgabe :=
  { Date := 20200820, Pages := 1, Titles := ["TITELSEITE"], Subscription := true }

/-- A server that answers from tables: the issue `issue1` for every date, `pg`
for every page URL, the article listed for an article URL and the size listed
for a picture URL; URLs that are not listed get the zero value. -/
def tableServer (pg : seite) (arts : List (String × article)) (sizes : List (String × Int)) :
    Server where
  getAusgabe := fun _ => issue1
  getSeite := fun _ => pg
  getArtikel := fun u => (arts.lookup u).getD {}
  saveFromURL := fun u => (sizes.lookup u).getD 0

/-- A page with the two article elements `A` and `B`. -/
def pageAB : seite :=
  { Elements := [{ ID := "A", Type_ := "article" }, { ID := "B", Type_ := "article" }] }

/-- `A(next=B)`, `B(next=C)`, and no article `C` on the page. -/
def srvChain : Server :=
  tableServer pageAB
    [("20200820/0/A", { ID := "A", Title := "a", Next := { ID := "B" } }),
     ("20200820/0/B", { ID := "B", Title := "b", Prev := { ID := "A" }, Next := { ID := "C" } })]
    []

/-- `A(next=B)`, `B(next=A)`: a cycle. -/
def srvCycle : Server :=
  tableServer pageAB
    [("20200820/0/A", { ID := "A", Title := "a", Next := { ID := "B" } }),
     ("20200820/0/B", { ID := "B", Title := "b", Prev := { ID := "A" }, Next := { ID := "A" } })]
    []

/-- The articles fetched for `A` and for `B` have the same id `X`; the first
has the next-id `X`, the second has none. -/
def srvShared : Server :=
  tableServer pageAB
    [("20200820/0/A", { ID := "X", Title := "a", Next := { ID := "X" } }),
     ("20200820/0/B", { ID := "X", Title := "b", Prev := { ID := "X" } })]
    []

/-- `A(prev="")`, `B(prev="")`: two head candidates. -/
def srvTwoHeads : Server :=
  tableServer pageAB
    [("20200820/0/A", { ID := "A", Title := "a" }),
     ("20200820/0/B", { ID := "B", Title := "b" })]
    []

/-- `A` lies on page 0 and has a next link with the id `B` and the page index 1;
`B` is an article of the same page. -/
def srvCrossPage : Server :=
  tableServer pageAB
    [("20200820/0/A",
       { ID := "A", Title := "a", Next := { ID := "B", Paper := { Page := { Index := 1 } } } }),
     ("20200820/0/B", { ID := "B", Title := "b", Prev := { ID := "A" } })]
    []

/-- A page with one article element. -/
def pageA : seite := { Elements := [{ ID := "A", Type_ := "article" }] }

/-- The only article of the page has a previous link to an article `Z` of its own page. -/
def srvNoHead : Server :=
  tableServer pageA [("20200820/0/A", { ID := "A", Title := "a", Prev := { ID := "Z" } })] []

/-- A page with the three article elements `A`, `B` and `C`. -/
def pageABC : seite :=
  { Elements := [{ ID := "A", Type_ := "article" }, { ID := "B", Type_ := "article" },
      { ID := "C", Type_ := "article" }] }

/-- The head `A` has no next article; `B` and `C` are not reached by the walk.
`B` has the picture `p1`, which the server delivers with 7 bytes. -/
def srvLoose : Server :=
  tableServer pageABC
    [("20200820/0/A", { ID := "A", Title := "a" }),
     ("20200820/0/B",
       { ID := "B", Title := "b", Prev := { ID := "A" }, Pictures := [{ ID := "p1" }] }),
     ("20200820/0/C", { ID := "C", Title := "c", Prev := { ID := "B" } })]
    [("20200820/0/p1/jpg", 7)]

/-- The only article of the page is its head; it has the pictures `p1`, which
the server delivers with 7 bytes, and `p2`, which it delivers with none. -/
def srvPictures : Server :=
  tableServer pageA
    [("20200820/0/A", { ID := "A", Title := "a", Pictures := [{ ID := "p1" }, { ID := "p2" }] })]
    [("20200820/0/p1/jpg", 7), ("20200820/0/p2/jpg", 0)]

/-- The element `A` of `srvPictures` after the loop over the elements. -/
def elementPictures : element :=
  { ID := "A", Type_ := "article", AltTitle := "a",
    Pictures := [{ ID := "p1", Size := 7 }, { ID := "p2", Size := 0 }] }

/-- The page of `srvPictures` as the templates get it. -/
def seitePictures : seite := { Elements := [elementPictures], Sequence := [elementPictures] }

/-- The page of `srvLoose` as the templates get it: the walk stops at `A`, the
two other slots of the Sequence keep the zero element. -/
def seiteLoose : seite :=
  { Elements := [{ ID := "A", Type_ := "article", AltTitle := "a" },
      { ID := "B", Type_ := "article", AltTitle := "b", Pictures := [{ ID := "p1", Size := 7 }] },
      { ID := "C", Type_ := "article", AltTitle := "c" }],
    Sequence := [{ ID := "A", Type_ := "article", AltTitle := "a" }, {}, {}] }

end azdl

/-! ## Theorems: the page loop -/

namespace azdl

theorem mapLookup_mapAssign (m : List (String × Nat)) (k : String) (v : Nat) (k1 : String) :
    mapLookup (mapAssign m k v) k1 = if k = k1 then some v else mapLookup m k1 := by
  induction m with
  | nil => simp [mapAssign, mapLookup]
  | cons kv m ih =>
    obtain ⟨k0, v0⟩ := kv
    by_cases h0 : k0 = k
    · subst h0
      by_cases h1 : k0 = k1 <;> simp [mapAssign, mapLookup, h1]
    · by_cases h1 : k0 = k1
      · subst h1
        have : ¬ k = k0 := fun h => h0 h.symm
        simp [mapAssign, mapLookup, h0, this]
      · simp [mapAssign, mapLookup, h0, h1, ih]

theorem keys_mapAssign (m : List (String × Nat)) (k : String) (v : Nat) (k1 : String) :
    k1 ∈ (mapAssign m k v).map Prod.fst ↔ k1 = k ∨ k1 ∈ m.map Prod.fst := by
  induction m with
  | nil => simp [mapAssign]
  | cons kv m ih =>
    obtain ⟨k0, v0⟩ := kv
    by_cases h0 : k0 = k
    · subst h0
      simp [mapAssign]
    · simp only [mapAssign, h0, if_false, List.map_cons, List.mem_cons, ih]
      tauto

theorem nodup_mapAssign (m : List (String × Nat)) (k : String) (v : Nat)
    (h : (m.map Prod.fst).Nodup) : ((mapAssign m k v).map Prod.fst).Nodup := by
  induction m with
  | nil => simp [mapAssign]
  | cons kv m ih =>
    obtain ⟨k0, v0⟩ := kv
    simp only [List.map_cons, List.nodup_cons] at h
    by_cases h0 : k0 = k
    · subst h0
      simpa [mapAssign] using h
    · simp only [mapAssign, h0, if_false, List.map_cons, List.nodup_cons]
      refine ⟨?_, ih h.2⟩
      rw [keys_mapAssign]
      rintro (h1 | h1)
      · exact h0 h1
      · exact h.1 h1

theorem elementStep_article (srv : Server) (url : String) (v : PageVars) (idx : Nat)
    (e : element) (h : e.Type_ = "article") :
    elementStep srv url v idx e =
      { Elements := v.Elements.modify
          (fun x => { x with AltTitle := cheapExerpt (artikelOf srv url e),
                             Pictures := fetchPictures srv url (artikelOf srv url e).Pictures }) idx
        id2idx := mapAssign v.id2idx (artikelOf srv url e).ID idx
        idx2next := v.idx2next.set idx (artikelOf srv url e).Next.ID
        ersterArtikel :=
          if v.ersterArtikel < 0 && isFirst (artikelOf srv url e) then (idx : Int)
          else v.ersterArtikel } := by
  simp [elementStep, h, artikelOf]

theorem elementStep_other (srv : Server) (url : String) (v : PageVars) (idx : Nat)
    (e : element) (h : e.Type_ ≠ "article") : elementStep srv url v idx e = v := by
  simp [elementStep, h]

theorem isFirst_iff (srv : Server) (url : String) (e : element) (h : e.Type_ = "article") :
    isFirst (artikelOf srv url e) = true ↔ qualifies srv url e := by
  simp [isFirst, qualifies, h]

/-- The keys of `id2idx` after the loop: the keys before it and the ids fetched in it. -/
theorem elementLoop_keys (srv : Server) (url : String) (es : List element) :
    ∀ (v : PageVars) (idx : Nat) (k : String),
      k ∈ (elementLoop srv url v idx es).id2idx.map Prod.fst ↔
        k ∈ v.id2idx.map Prod.fst ∨ k ∈ articleIDs srv url es := by
  induction es with
  | nil => intro v idx k; simp [elementLoop, articleIDs]
  | cons e es ih =>
    intro v idx k
    rw [elementLoop, ih]
    by_cases h : e.Type_ = "article"
    · rw [elementStep_article srv url v idx e h]
      simp only [keys_mapAssign, articleIDs, List.filter_cons, h, decide_True, if_true,
        List.map_cons, List.mem_cons]
      tauto
    · rw [elementStep_other srv url v idx e h]
      simp [articleIDs, List.filter_cons, h]

theorem elementLoop_nodup (srv : Server) (url : String) (es : List element) :
    ∀ (v : PageVars) (idx : Nat), (v.id2idx.map Prod.fst).Nodup →
      ((elementLoop srv url v idx es).id2idx.map Prod.fst).Nodup := by
  induction es with
  | nil => intro v idx h; simpa [elementLoop] using h
  | cons e es ih =>
    intro v idx hv
    rw [elementLoop]
    apply ih
    by_cases h : e.Type_ = "article"
    · rw [elementStep_article srv url v idx e h]
      exact nodup_mapAssign _ _ _ hv
    · rw [elementStep_other srv url v idx e h]
      exact hv

/-- `len(id2idx)` is the number of distinct fetched article ids. -/
theorem pageVars_id2idx_length (srv : Server) (url : String) (Elements : List element) :
    (pageVars srv url Elements).id2idx.length = (articleIDs srv url Elements).dedup.length := by
  have hk : ∀ k, k ∈ (pageVars srv url Elements).id2idx.map Prod.fst ↔
      k ∈ articleIDs srv url Elements := by
    intro k
    rw [pageVars, elementLoop_keys]
    simp
  have hn : ((pageVars srv url Elements).id2idx.map Prod.fst).Nodup := by
    rw [pageVars]
    apply elementLoop_nodup
    simp
  have h1 : ((pageVars srv url Elements).id2idx.map Prod.fst).toFinset =
      (articleIDs srv url Elements).toFinset := by
    ext k
    simp only [List.mem_toFinset]
    exact hk k
  have h2 := List.toFinset_card_of_nodup hn
  rw [h1, List.card_toFinset] at h2
  rw [h2, List.length_map]

theorem follows_ne_nil (v : PageVars) (art : Nat) (ps : List Nat) (h : follows v art ps) :
    ps ≠ [] := by
  cases ps with
  | nil => simp [follows] at h
  | cons p ps => simp

theorem follows_stop (v : PageVars) (art : Nat) (ps : List Nat)
    (hs : v.nextID art = "" ∨ mapLookup v.id2idx (v.nextID art) = none) :
    follows v art ps ↔ ps = [art] := by
  cases ps with
  | nil => simp [follows]
  | cons p ps =>
    cases ps with
    | nil => simp [follows, hs]
    | cons q ps =>
      simp only [follows, List.cons.injEq, reduceCtorEq, and_false, iff_false, not_and]
      intro _ h1 h2
      rcases hs with hs | hs
      · exact absurd hs h1
      · rw [hs] at h2; cases h2

theorem follows_head (v : PageVars) (art p : Nat) (ps : List Nat)
    (h : follows v art (p :: ps)) : p = art := by
  cases ps with
  | nil => exact h.1
  | cons q ps => exact h.1

theorem follows_step (v : PageVars) (art next : Nat) (ps : List Nat)
    (h1 : v.nextID art ≠ "") (h2 : mapLookup v.id2idx (v.nextID art) = some next) :
    follows v art ps ↔ ∃ qs, ps = art :: qs ∧ follows v next qs := by
  constructor
  · intro h
    cases ps with
    | nil => exact absurd h (by simp [follows])
    | cons p ps =>
      cases ps with
      | nil =>
        obtain ⟨_, h3 | h3⟩ := h
        · exact absurd h3 h1
        · rw [h2] at h3; cases h3
      | cons q ps =>
        obtain ⟨rfl, _, h3, h4⟩ := h
        rw [h2] at h3
        injection h3 with h3
        subst h3
        exact ⟨_, rfl, h4⟩
  · rintro ⟨qs, rfl, h3⟩
    cases qs with
    | nil => exact absurd h3 (by simp [follows])
    | cons q ps =>
      have hq := follows_head v next q ps h3
      subst hq
      exact ⟨rfl, h1, h2, h3⟩

/-- The loop of the walk, with steps enough, returns a Sequence exactly when
the walk from `art` fits into the slots from `i` on; it then has written the
visited elements into the slots `i, i+1, ...` and left the others as they were. -/
theorem walk_done_iff (v : PageVars) (hv : v.valid) :
    ∀ (steps : Nat) (Seq : List element) (i art : Nat) (S : List element),
      art < v.Elements.length → i ≤ Seq.length → Seq.length + 1 ≤ steps + i →
      (walk v.Elements v.idx2next v.id2idx steps Seq i art = Outcome.done S ↔
        ∃ ps, follows v art ps ∧ i + ps.length ≤ Seq.length ∧
          S = Seq.take i ++ ps.map v.elementAt ++ Seq.drop (i + ps.length)) := by
  intro steps
  induction steps with
  | zero => intro Seq i art S _ h1 h2; omega
  | succ steps ih =>
    intro Seq i art S hart hi hsteps
    have hE : v.Elements[art]? = some (v.elementAt art) := by
      simp [PageVars.elementAt, List.getElem?_eq_getElem hart]
    have hN : v.idx2next[art]? = some (v.nextID art) := by
      have : art < v.idx2next.length := by rw [hv.1]; exact hart
      simp [PageVars.nextID, List.getElem?_eq_getElem this]
    by_cases hlt : i < Seq.length
    · have hset : Seq.set i (v.elementAt art) =
          Seq.take i ++ [v.elementAt art] ++ Seq.drop (i + 1) := by
        rw [List.set_eq_take_append_cons_drop]; simp [hlt]
      by_cases hnext : v.nextID art = ""
      · have hw : walk v.Elements v.idx2next v.id2idx (steps + 1) Seq i art =
            Outcome.done (Seq.set i (v.elementAt art)) := by
          simp [walk, hlt, hE, hN, hnext]
        rw [hw]
        constructor
        · intro h
          injection h with h
          refine ⟨[art], (follows_stop v art _ (Or.inl hnext)).2 rfl, by simpa using hlt, ?_⟩
          rw [← h, hset]; simp
        · rintro ⟨ps, hf, _, hS⟩
          rw [(follows_stop v art _ (Or.inl hnext)).1 hf] at hS
          rw [hS, hset]; simp
      · cases hl : mapLookup v.id2idx (v.nextID art) with
        | none =>
          have hw : walk v.Elements v.idx2next v.id2idx (steps + 1) Seq i art =
              Outcome.done (Seq.set i (v.elementAt art)) := by
            simp [walk, hlt, hE, hN, hnext, hl]
          rw [hw]
          constructor
          · intro h
            injection h with h
            refine ⟨[art], (follows_stop v art _ (Or.inr hl)).2 rfl, by simpa using hlt, ?_⟩
            rw [← h, hset]; simp
          · rintro ⟨ps, hf, _, hS⟩
            rw [(follows_stop v art _ (Or.inr hl)).1 hf] at hS
            rw [hS, hset]; simp
        | some next =>
          have hw : walk v.Elements v.idx2next v.id2idx (steps + 1) Seq i art =
              walk v.Elements v.idx2next v.id2idx steps (Seq.set i (v.elementAt art)) (i + 1) next := by
            simp [walk, hlt, hE, hN, hnext, hl]
          have hlen : (Seq.set i (v.elementAt art)).length = Seq.length := by simp
          rw [hw, ih (Seq.set i (v.elementAt art)) (i + 1) next S (hv.2.1 _ _ hl)
            (by rw [hlen]; omega) (by rw [hlen]; omega)]
          have htake : (Seq.set i (v.elementAt art)).take (i + 1) =
              Seq.take i ++ [v.elementAt art] := by
            rw [hset]
            have : (Seq.take i ++ [v.elementAt art]).length = i + 1 := by
              simp [List.length_take, Nat.min_eq_left (Nat.le_of_lt hlt)]
            rw [List.take_append_of_le_length (by rw [this]), List.take_of_length_le (by rw [this])]
          have hdrop : ∀ k, (Seq.set i (v.elementAt art)).drop (i + 1 + k) = Seq.drop (i + 1 + k) := by
            intro k
            exact List.drop_set_of_lt _ _ (by omega)
          constructor
          · rintro ⟨qs, hf, hq, hS⟩
            refine ⟨art :: qs, (follows_step v art next _ hnext hl).2 ⟨qs, rfl, hf⟩, ?_, ?_⟩
            · have hq2 : i + 1 + qs.length ≤ Seq.length := hlen ▸ hq
              simp only [List.length_cons]; omega
            · rw [hS, htake, hdrop]
              have hk : i + (qs.length + 1) = i + 1 + qs.length := by omega
              simp only [List.map_cons, List.length_cons, List.append_assoc, List.singleton_append,
                List.cons_append, List.nil_append, hk]
          · rintro ⟨ps, hf, hq, hS⟩
            obtain ⟨qs, rfl, hf2⟩ := (follows_step v art next _ hnext hl).1 hf
            refine ⟨qs, hf2, ?_, ?_⟩
            · rw [hlen]; simp only [List.length_cons] at hq; omega
            · rw [hS, htake, hdrop]
              have hk : i + (qs.length + 1) = i + 1 + qs.length := by omega
              simp only [List.map_cons, List.length_cons, List.append_assoc, List.singleton_append,
                List.cons_append, List.nil_append, hk]
    · have hw : walk v.Elements v.idx2next v.id2idx (steps + 1) Seq i art = Outcome.panic := by
        simp [walk, hlt]
      rw [hw]
      constructor
      · intro h; cases h
      · rintro ⟨ps, hf, hq, _⟩
        have := follows_ne_nil v art ps hf
        have : 0 < ps.length := List.length_pos.2 this
        omega

/-- With `len(Sequence) + 1 - i` steps the loop of the walk never runs out of steps. -/
theorem walk_no_fuel (E : List element) (nx : List String) (m : List (String × Nat)) :
    ∀ (steps : Nat) (Seq : List element) (i art : Nat), i ≤ Seq.length →
      Seq.length + 1 ≤ steps + i → walk E nx m steps Seq i art ≠ Outcome.fuel := by
  intro steps
  induction steps with
  | zero => intro Seq i art h1 h2; omega
  | succ steps ih =>
    intro Seq i art h1 h2
    unfold walk
    split
    · split
      · split
        · simp
        · split
          · apply ih
            · simp only [List.length_set]; omega
            · simp only [List.length_set]; omega
          · simp
      · simp
    · simp

/-- The resolver always ends: it returns a Sequence or it panics. -/
theorem resolveSequence_no_fuel (v : PageVars) : resolveSequence v ≠ Outcome.fuel := by
  unfold resolveSequence
  simp only
  split
  · simp
  · exact walk_no_fuel _ _ _ _ _ _ _ (Nat.zero_le _) (by simp)

theorem elementStep_valid (srv : Server) (url : String) (v : PageVars) (idx : Nat) (e : element)
    (hv : v.valid) (hidx : idx < v.Elements.length) :
    (elementStep srv url v idx e).valid ∧
      (elementStep srv url v idx e).Elements.length = v.Elements.length := by
  by_cases h : e.Type_ = "article"
  · rw [elementStep_article srv url v idx e h]
    refine ⟨⟨?_, ?_, ?_⟩, ?_⟩
    · simp [hv.1]
    · intro k j hj
      simp only [mapLookup_mapAssign, List.length_modify] at hj ⊢
      split at hj
      · injection hj with hj; omega
      · exact hv.2.1 k j hj
    · simp only [List.length_modify]
      split
      · exact_mod_cast hidx
      · exact hv.2.2
    · simp
  · rw [elementStep_other srv url v idx e h]
    exact ⟨hv, rfl⟩

theorem elementLoop_valid (srv : Server) (url : String) (es : List element) :
    ∀ (v : PageVars) (idx : Nat), v.valid → idx + es.length ≤ v.Elements.length →
      (elementLoop srv url v idx es).valid := by
  induction es with
  | nil => intro v idx hv _; simpa [elementLoop] using hv
  | cons e es ih =>
    intro v idx hv hlen
    simp only [List.length_cons] at hlen
    rw [elementLoop]
    have hs := elementStep_valid srv url v idx e hv (by omega)
    exact ih _ _ hs.1 (by rw [hs.2]; omega)

theorem pageVars_valid (srv : Server) (url : String) (Elements : List element) :
    (pageVars srv url Elements).valid := by
  rw [pageVars]
  apply elementLoop_valid
  · refine ⟨by simp, ?_, ?_⟩
    · intro k j hj; simp [mapLookup] at hj
    · show (-1 : Int) < (Elements.length : Int)
      omega
  · simp

/-- The head the loop leaves in `ersterArtikel`: once set it is kept; while
unset it becomes the position of the first qualifying element. -/
theorem elementLoop_first (srv : Server) (url : String) (es : List element) :
    ∀ (v : PageVars) (idx : Nat),
      (0 ≤ v.ersterArtikel → (elementLoop srv url v idx es).ersterArtikel = v.ersterArtikel) ∧
      (v.ersterArtikel < 0 →
        ((elementLoop srv url v idx es).ersterArtikel = v.ersterArtikel ∧
            ∀ e ∈ es, ¬ qualifies srv url e) ∨
          ∃ k e, (elementLoop srv url v idx es).ersterArtikel = ((idx + k : Nat) : Int) ∧
            es[k]? = some e ∧ qualifies srv url e ∧
            ∀ j e1, j < k → es[j]? = some e1 → ¬ qualifies srv url e1) := by
  induction es with
  | nil =>
    intro v idx
    simp [elementLoop]
  | cons e es ih =>
    intro v idx
    rw [elementLoop]
    have hstep : (elementStep srv url v idx e).ersterArtikel =
        if v.ersterArtikel < 0 ∧ qualifies srv url e then (idx : Int) else v.ersterArtikel := by
      by_cases h : e.Type_ = "article"
      · rw [elementStep_article srv url v idx e h]
        simp only [Bool.and_eq_true, decide_eq_true_eq, isFirst_iff srv url e h]
      · rw [elementStep_other srv url v idx e h]
        have : ¬ qualifies srv url e := fun hq => h hq.1
        simp [this]
    obtain ⟨ih1, ih2⟩ := ih (elementStep srv url v idx e) (idx + 1)
    constructor
    · intro h0
      have h1 : ¬ v.ersterArtikel < 0 := by omega
      have h2 : (elementStep srv url v idx e).ersterArtikel = v.ersterArtikel := by
        rw [hstep]; simp [h1]
      rw [ih1 (by rw [h2]; exact h0), h2]
    · intro h0
      by_cases hq : qualifies srv url e
      · right
        have h2 : (elementStep srv url v idx e).ersterArtikel = (idx : Int) := by
          rw [hstep]; simp [h0, hq]
        refine ⟨0, e, ?_, by simp, hq, ?_⟩
        · rw [ih1 (by rw [h2]; omega), h2]; simp
        · intro j e1 hj; omega
      · have h2 : (elementStep srv url v idx e).ersterArtikel = v.ersterArtikel := by
          rw [hstep]; simp [hq]
        rcases ih2 (by rw [h2]; exact h0) with ⟨h3, h4⟩ | ⟨k, e1, h3, h4, h5, h6⟩
        · left
          refine ⟨by rw [h3, h2], ?_⟩
          intro x hx
          rcases List.mem_cons.1 hx with rfl | hx
          · exact hq
          · exact h4 x hx
        · right
          refine ⟨k + 1, e1, ?_, by simpa using h4, h5, ?_⟩
          · rw [h3]; congr 1; omega
          · intro j e2 hj hje
            cases j with
            | zero =>
              simp only [List.getElem?_cons_zero, Option.some.injEq] at hje
              subst hje; exact hq
            | succ j =>
              simp only [List.getElem?_cons_succ] at hje
              exact h6 j e2 (by omega) hje

theorem walk_length (E : List element) (nx : List String) (m : List (String × Nat)) :
    ∀ (steps : Nat) (Seq : List element) (i art : Nat) (S : List element),
      walk E nx m steps Seq i art = Outcome.done S → S.length = Seq.length := by
  intro steps
  induction steps with
  | zero => intro Seq i art S h; simp [walk] at h
  | succ steps ih =>
    intro Seq i art S h
    unfold walk at h
    split at h
    · split at h
      · split at h
        · injection h with h; rw [← h]; simp
        · split at h
          · rw [ih _ _ _ _ h]; simp
          · injection h with h; rw [← h]; simp
      · cases h
    · cases h

theorem resolveSequence_length (v : PageVars) (S : List element)
    (h : resolveSequence v = Outcome.done S) : S.length = v.id2idx.length := by
  unfold resolveSequence at h
  simp only at h
  split at h
  · injection h with h; rw [← h]; simp
  · rw [walk_length _ _ _ _ _ _ _ _ h]; simp

/-- C1. Reading-order walk result: on a page with head position `head`, the
resolver returns the Sequence `S` exactly when the walk from the head (slot 0
the head; each next slot the element at the position the id->position map
gives for the non-empty next-id of the slot before; stopping at the first
article whose next-id is empty or not a key of the map) fits into the slots,
and `S` is then the visited elements followed by zero elements. -/
theorem walk_result (srv : Server) (url : String) (Elements : List element) (head : Nat)
    (S : List element)
    (hhead : (pageVars srv url Elements).ersterArtikel = (head : Int)) :
    resolveSequence (pageVars srv url Elements) = Outcome.done S ↔
      ∃ ps, follows (pageVars srv url Elements) head ps ∧
        ps.length ≤ (pageVars srv url Elements).id2idx.length ∧
        S = ps.map (pageVars srv url Elements).elementAt ++
          List.replicate ((pageVars srv url Elements).id2idx.length - ps.length) default := by
  have hv := pageVars_valid srv url Elements
  have hlt : head < (pageVars srv url Elements).Elements.length := by
    have := hv.2.2
    rw [hhead] at this
    exact_mod_cast this
  have hn : ¬ (pageVars srv url Elements).ersterArtikel < 0 := by rw [hhead]; omega
  have hn2 : ¬ (head : Int) < 0 := by omega
  unfold resolveSequence
  simp only [hhead, hn2, if_false, Int.toNat_ofNat]
  rw [walk_done_iff _ hv _ _ _ _ _ hlt (Nat.zero_le _) (by simp)]
  simp [List.drop_replicate]

/-- The witness of the specification: `[A(next=B), B(next=C)]`, no `C` on the
page, gives the Sequence `[A, B]`. -/
theorem walk_result_witness :
    resolveSequence (pageVars srvChain "20200820/0" pageAB.Elements) =
        Outcome.done [{ ID := "A", Type_ := "article", AltTitle := "a" },
                      { ID := "B", Type_ := "article", AltTitle := "b" }] ∧
      ∃ ps, follows (pageVars srvChain "20200820/0" pageAB.Elements) 0 ps ∧
        ps.length ≤ (pageVars srvChain "20200820/0" pageAB.Elements).id2idx.length ∧
        [{ ID := "A", Type_ := "article", AltTitle := "a" },
          { ID := "B", Type_ := "article", AltTitle := "b" }] =
          ps.map (pageVars srvChain "20200820/0" pageAB.Elements).elementAt ++
            List.replicate
              ((pageVars srvChain "20200820/0" pageAB.Elements).id2idx.length - ps.length) default :=
  ⟨by decide,
    (walk_result srvChain "20200820/0" pageAB.Elements 0 _ (by decide)).1 (by decide)⟩

/-- C2. On the cycle `A -> B -> A` the walk writes slot 2 of a Sequence of 2
slots: the resolver, and with it the run, ends in a panic. -/
theorem cycle_panics :
    (pageVars srvCycle "20200820/0" pageAB.Elements).id2idx.length = 2 ∧
      resolveSequence (pageVars srvCycle "20200820/0" pageAB.Elements) = Outcome.panic ∧
      createAzanEpub srvCycle "latest" = Outcome.panic := by
  decide

/-- The same write out of range without a cycle: two elements whose fetched
articles share the id `X` give a Sequence of one slot, and the walk goes from
the first element to the second. -/
theorem shared_id_panics :
    (pageVars srvShared "20200820/0" pageAB.Elements).id2idx = [("X", 1)] ∧
      resolveSequence (pageVars srvShared "20200820/0" pageAB.Elements) = Outcome.panic := by
  decide

end azdl

namespace azdl

/-- C3. Sequence length: when the walk completes, the Sequence has as many
slots as there are distinct ids among the articles fetched for the page's
article-typed elements; elements of another type add nothing, and a server
that answers with the same article ids but other prev/next links gives a
Sequence of the same length. -/
theorem sequence_length (srv : Server) (url : String) (Elements : List element)
    (S : List element) (h : resolveSequence (pageVars srv url Elements) = Outcome.done S) :
    S.length = (articleIDs srv url Elements).dedup.length ∧
      ∀ (srv2 : Server) (S2 : List element),
        (∀ e ∈ Elements, (artikelOf srv2 url e).ID = (artikelOf srv url e).ID) →
        resolveSequence (pageVars srv2 url Elements) = Outcome.done S2 →
        S2.length = S.length := by
  have h1 : S.length = (articleIDs srv url Elements).dedup.length := by
    rw [resolveSequence_length _ _ h, pageVars_id2idx_length]
  refine ⟨h1, ?_⟩
  intro srv2 S2 hid h2
  rw [h1, resolveSequence_length _ _ h2, pageVars_id2idx_length]
  have : articleIDs srv2 url Elements = articleIDs srv url Elements := by
    unfold articleIDs
    apply List.map_congr_left
    intro e he
    exact hid e (List.mem_of_mem_filter he)
  rw [this]

/-- The chain page `[A(next=B), B(next=C)]` has two distinct article ids and a
Sequence of two slots. -/
theorem sequence_length_witness :
    ([{ ID := "A", Type_ := "article", AltTitle := "a" },
        { ID := "B", Type_ := "article", AltTitle := "b" }] : List element).length =
        (articleIDs srvChain "20200820/0" pageAB.Elements).dedup.length ∧
      ∀ (srv2 : Server) (S2 : List element),
        (∀ e ∈ pageAB.Elements,
          (artikelOf srv2 "20200820/0" e).ID = (artikelOf srvChain "20200820/0" e).ID) →
        resolveSequence (pageVars srv2 "20200820/0" pageAB.Elements) = Outcome.done S2 →
        S2.length =
          ([{ ID := "A", Type_ := "article", AltTitle := "a" },
            { ID := "B", Type_ := "article", AltTitle := "b" }] : List element).length :=
  sequence_length srvChain "20200820/0" pageAB.Elements _ (by decide)

/-- The head after the loop over the elements of a page. -/
theorem pageVars_first (srv : Server) (url : String) (Elements : List element) :
    ((pageVars srv url Elements).ersterArtikel = -1 ∧ ∀ e ∈ Elements, ¬ qualifies srv url e) ∨
      ∃ (head : Nat) (e : element), (pageVars srv url Elements).ersterArtikel = (head : Int) ∧
        Elements[head]? = some e ∧ qualifies srv url e ∧
        ∀ (j : Nat) (e1 : element), j < head → Elements[j]? = some e1 →
          ¬ qualifies srv url e1 := by
  have h := (elementLoop_first srv url Elements
    { Elements := Elements, ersterArtikel := -1, id2idx := [],
      idx2next := List.replicate Elements.length "" } 0).2 (by show (-1 : Int) < 0; decide)
  simpa [pageVars] using h

/-- C4. Head first-match: after the loop over the elements `ersterArtikel` is
-1 and no element qualifies, or it is the position of a qualifying element
before which no element qualifies (a later qualifying element never replaces it). -/
theorem head_first_match (srv : Server) (url : String) (Elements : List element) :
    ((pageVars srv url Elements).ersterArtikel = -1 ∧ ∀ e ∈ Elements, ¬ qualifies srv url e) ∨
      ∃ (head : Nat) (e : element), (pageVars srv url Elements).ersterArtikel = (head : Int) ∧
        Elements[head]? = some e ∧ qualifies srv url e ∧
        ∀ (j : Nat) (e1 : element), j < head → Elements[j]? = some e1 →
          ¬ qualifies srv url e1 :=
  pageVars_first srv url Elements

/-- The example of the specification: of `[A(prev=""), B(prev="")]` the head is `A`. -/
theorem head_first_match_witness :
    (pageVars srvTwoHeads "20200820/0" pageAB.Elements).ersterArtikel = 0 ∧
      (∀ e ∈ pageAB.Elements, qualifies srvTwoHeads "20200820/0" e) ∧
      (((pageVars srvTwoHeads "20200820/0" pageAB.Elements).ersterArtikel = -1 ∧
          ∀ e ∈ pageAB.Elements, ¬ qualifies srvTwoHeads "20200820/0" e) ∨
        ∃ (head : Nat) (e : element), (pageVars srvTwoHeads "20200820/0" pageAB.Elements).ersterArtikel = (head : Int) ∧
          pageAB.Elements[head]? = some e ∧ qualifies srvTwoHeads "20200820/0" e ∧
          ∀ (j : Nat) (e1 : element), j < head → pageAB.Elements[j]? = some e1 →
            ¬ qualifies srvTwoHeads "20200820/0" e1) :=
  ⟨by decide, by decide, head_first_match srvTwoHeads "20200820/0" pageAB.Elements⟩

/-- C5, as stated, fails: the only article of the page does not qualify as
head, and the page's Sequence is not empty but has one slot, the zero element
(for which the page template writes an entry, not the online-only notice). -/
theorem no_head_not_empty :
    (∀ e ∈ pageA.Elements, ¬ qualifies srvNoHead "20200820/0" e) ∧
      resolveSequence (pageVars srvNoHead "20200820/0" pageA.Elements) =
        Outcome.done [default] ∧
      resolveSequence (pageVars srvNoHead "20200820/0" pageA.Elements) ≠ Outcome.done [] ∧
      templates.Seite { Sequence := [default] } =
        templates.SeiteBody.entries ["article_.xhtml"] := by
  decide

/-- C5, amended. No head means a Sequence of zero elements only: when no
element of the page qualifies as head, the Sequence has one slot for each
distinct fetched article id and every slot holds the zero element; it has no
entries exactly when the page has no article-typed element. -/
theorem no_head_sequence (srv : Server) (url : String) (Elements : List element)
    (h : ∀ e ∈ Elements, ¬ qualifies srv url e) :
    resolveSequence (pageVars srv url Elements) =
        Outcome.done (List.replicate (articleIDs srv url Elements).dedup.length default) ∧
      ((articleIDs srv url Elements).dedup.length = 0 ↔
        ∀ e ∈ Elements, e.Type_ ≠ "article") := by
  constructor
  · have hneg : (pageVars srv url Elements).ersterArtikel < 0 := by
      rcases pageVars_first srv url Elements with ⟨h1, _⟩ | ⟨head, e, _, h2, h3, _⟩
      · rw [h1]; decide
      · exact absurd h3 (h e (List.getElem?_mem h2))
    unfold resolveSequence
    simp only [hneg, if_true]
    rw [pageVars_id2idx_length]
  · rw [List.length_eq_zero, List.dedup_eq_nil]
    unfold articleIDs
    rw [List.map_eq_nil_iff, List.filter_eq_nil_iff]
    simp

/-- The page whose only article has a previous link into its own page: one
zero slot. -/
theorem no_head_sequence_witness :
    (∀ e ∈ pageA.Elements, ¬ qualifies srvNoHead "20200820/0" e) ∧
      resolveSequence (pageVars srvNoHead "20200820/0" pageA.Elements) =
        Outcome.done (List.replicate
          (articleIDs srvNoHead "20200820/0" pageA.Elements).dedup.length default) ∧
      ((articleIDs srvNoHead "20200820/0" pageA.Elements).dedup.length = 0 ↔
        ∀ e ∈ pageA.Elements, e.Type_ ≠ "article") :=
  ⟨by decide, no_head_sequence srvNoHead "20200820/0" pageA.Elements (by decide)⟩

end azdl

/-! ## Theorems: the navigation documents -/

namespace templates
open azdl

theorem playOrders_append (a b : List ncx) :
    playOrders (a ++ b) = playOrders a ++ playOrders b := by
  induction a with
  | nil => rfl
  | cons t a ih => cases t <;> simp [playOrders, ih]

theorem contentSrcs_append (a b : List ncx) :
    contentSrcs (a ++ b) = contentSrcs a ++ contentSrcs b := by
  induction a with
  | nil => rfl
  | cons t a ih => cases t <;> simp [contentSrcs, ih]

/-- The counter after the articles of a page, and the playOrder values written for them. -/
theorem rangeSequence_playOrders (es : List element) :
    ∀ i, (ToC.rangeSequence i es).1 = i + es.length ∧
      playOrders (ToC.rangeSequence i es).2 = List.range' (i + 1) es.length := by
  induction es with
  | nil => intro i; simp [ToC.rangeSequence, playOrders]
  | cons e es ih =>
    intro i
    obtain ⟨h1, h2⟩ := ih (i + 1)
    constructor
    · simp only [ToC.rangeSequence, navpoint, h1, List.length_cons]
      omega
    · simp only [ToC.rangeSequence, navpoint, playOrders, h2, List.length_cons, List.range'_succ]

theorem rangeSeiten_cons (i : Nat) (s : seite) (ss : List seite) :
    ToC.rangeSeiten i (s :: ss) =
      ((ToC.rangeSeiten (ToC.rangeSequence (i + 1) s.Sequence).1 ss).1,
        ncx.navPoint (dashes ("seite_" ++ Itoa s.Index)) (i + 1) ::
          ncx.content ("seite_" ++ Itoa s.Index ++ ".xhtml") ::
            ((ToC.rangeSequence (i + 1) s.Sequence).2 ++
              ncx.navPointEnd :: (ToC.rangeSeiten (ToC.rangeSequence (i + 1) s.Sequence).1 ss).2)) :=
  rfl

theorem ToC_eq (Seiten : List seite) :
    ToC Seiten =
      [ncx.navPoint (dashes "startseite") 1, ncx.content "title.xhtml", ncx.navPointEnd,
        ncx.navPoint (dashes "Inhalt") 2, ncx.content "index.xhtml", ncx.navPointEnd] ++
        (ToC.rangeSeiten 2 Seiten).2 ++
        [ncx.navPoint (dashes "Impressum") ((ToC.rangeSeiten 2 Seiten).1 + 1),
          ncx.content "impressum.xhtml", ncx.navPointEnd] :=
  rfl

theorem rangeSeiten_playOrders (ss : List seite) :
    ∀ i, (ToC.rangeSeiten i ss).1 = i + entries ss ∧
      playOrders (ToC.rangeSeiten i ss).2 = List.range' (i + 1) (entries ss) := by
  induction ss with
  | nil => intro i; simp [ToC.rangeSeiten, playOrders, entries]
  | cons s ss ih =>
    intro i
    obtain ⟨h1, h2⟩ := rangeSequence_playOrders s.Sequence (i + 1)
    obtain ⟨h3, h4⟩ := ih (i + 1 + s.Sequence.length)
    have he : entries (s :: ss) = (entries ss + s.Sequence.length) + 1 := by
      simp only [entries, List.map_cons, List.sum_cons]; omega
    rw [rangeSeiten_cons, h1, he]
    constructor
    · show (ToC.rangeSeiten (i + 1 + s.Sequence.length) ss).1 = _
      rw [h3]; omega
    · show playOrders (ncx.navPoint _ (i + 1) :: ncx.content _ ::
        ((ToC.rangeSequence (i + 1) s.Sequence).2 ++
          ncx.navPointEnd :: (ToC.rangeSeiten (i + 1 + s.Sequence.length) ss).2)) = _
      simp only [playOrders, playOrders_append, h2, h4, List.range'_succ, List.cons.injEq,
        true_and]
      rw [← List.range'_append_1]
      congr 2
      omega

/-- C6. Navigation position markers: the playOrder values of the NCX document,
in document order, are 1, 2, ..., N with N = 3 + the sum over the pages of
(1 + length of the page's Sequence); a closing navPoint leaves the counter unchanged. -/
theorem playOrder_contiguous (Seiten : List seite) :
    playOrders (ToC Seiten) =
        List.range' 1 (3 + (Seiten.map (fun s => 1 + s.Sequence.length)).sum) ∧
      ∀ i, (navpoint i []).1 = i := by
  refine ⟨?_, fun i => rfl⟩
  obtain ⟨h1, h2⟩ := rangeSeiten_playOrders Seiten 2
  have h3 : (List.map (fun s => 1 + s.Sequence.length) Seiten).sum = entries Seiten := rfl
  have h4 : 3 + entries Seiten = ((entries Seiten + 1) + 1) + 1 := by omega
  rw [ToC_eq, h1, h3, h4, List.range'_succ, List.range'_succ, List.range'_1_concat]
  simp only [List.cons_append, List.nil_append]
  simp only [playOrders, playOrders_append, h2, List.cons.injEq, true_and, Nat.reduceAdd,
    List.append_cancel_left_eq]
  exact ⟨by omega, trivial⟩

theorem rangeSequence_contentSrcs (es : List element) :
    ∀ i, contentSrcs (ToC.rangeSequence i es).2 =
      es.map (fun e => "article_" ++ e.ID ++ ".xhtml") := by
  induction es with
  | nil => intro i; simp [ToC.rangeSequence, contentSrcs]
  | cons e es ih => intro i; simp [ToC.rangeSequence, navpoint, contentSrcs, ih]

theorem rangeSeiten_contentSrcs (ss : List seite) :
    ∀ i, contentSrcs (ToC.rangeSeiten i ss).2 = ss.flatMap navTargets := by
  induction ss with
  | nil => intro i; simp [ToC.rangeSeiten, contentSrcs]
  | cons s ss ih =>
    intro i
    simp [ToC.rangeSeiten, navpoint, contentSrcs, contentSrcs_append, ih,
      rangeSequence_contentSrcs, navTargets]

theorem ToC_contentSrcs (Seiten : List seite) :
    contentSrcs (ToC Seiten) =
      ["title.xhtml", "index.xhtml"] ++ Seiten.flatMap navTargets ++ ["impressum.xhtml"] := by
  simp [ToC, navpoint, contentSrcs, contentSrcs_append, rangeSeiten_contentSrcs]

theorem NAV_eq (Seiten : List seite) :
    NAV Seiten =
      ["title.xhtml", "index.xhtml"] ++ Seiten.flatMap navTargets ++ ["impressum.xhtml"] := by
  have h : NAV.seiteLinks = navTargets := by
    funext s
    unfold NAV.seiteLinks navTargets
    by_cases hs : s.Sequence = [] <;> simp [hs]
  rw [NAV, h]

theorem navTargets_manifest (Seiten : List seite) (s : seite) (hs : s ∈ Seiten) (x : String)
    (hx : x ∈ navTargets s) : ∃ it ∈ ContentOPF.manifest Seiten, it.href = x := by
  have hsub : ∀ it ∈ ContentOPF.seiteItems s, it ∈ ContentOPF.manifest Seiten := by
    intro it hit
    unfold ContentOPF.manifest
    apply List.mem_append_left
    apply List.mem_append_right
    exact List.mem_flatMap.2 ⟨s, hs, hit⟩
  rcases List.mem_cons.1 hx with rfl | hx
  · exact ⟨_, hsub _ (List.mem_cons_self _ _), rfl⟩
  · obtain ⟨e, he, rfl⟩ := List.mem_map.1 hx
    exact ⟨⟨"article_" ++ e.ID ++ ".xhtml", "article_" ++ Itoa s.Index ++ "_" ++ e.ID,
      "application/xhtml+xml"⟩,
      hsub _ (List.mem_cons_of_mem _ (List.mem_flatMap.2 ⟨e, he, List.mem_cons_self _ _⟩)), rfl⟩

theorem targets_manifest (Seiten : List seite) (x : String)
    (hx : x ∈ ["title.xhtml", "index.xhtml"] ++ Seiten.flatMap navTargets ++ ["impressum.xhtml"]) :
    ∃ it ∈ ContentOPF.manifest Seiten, it.href = x := by
  rcases List.mem_append.1 hx with hx | hx
  · rcases List.mem_append.1 hx with hx | hx
    · simp only [List.mem_cons, List.mem_singleton, List.not_mem_nil, or_false] at hx
      rcases hx with rfl | rfl
      · exact ⟨⟨"title.xhtml", "title", "application/xhtml+xml"⟩, by simp [ContentOPF.manifest], rfl⟩
      · exact ⟨⟨"index.xhtml", "index", "application/xhtml+xml"⟩, by simp [ContentOPF.manifest], rfl⟩
    · obtain ⟨s, hs, hxs⟩ := List.mem_flatMap.1 hx
      exact navTargets_manifest Seiten s hs x hxs
  · simp only [List.mem_singleton] at hx
    subst hx
    exact ⟨⟨"impressum.xhtml", "imprint", "application/xhtml+xml"⟩, by simp [ContentOPF.manifest], rfl⟩

/-- C8. Navigation targets exist in the manifest: every content src of the NCX
document and every link of the navigation document is the href of a manifest item. -/
theorem navigation_targets_in_manifest (Seiten : List seite) :
    (∀ src ∈ contentSrcs (ToC Seiten), ∃ it ∈ ContentOPF.manifest Seiten, it.href = src) ∧
      ∀ href ∈ NAV Seiten, ∃ it ∈ ContentOPF.manifest Seiten, it.href = href := by
  constructor
  · intro src h
    rw [ToC_contentSrcs] at h
    exact targets_manifest Seiten src h
  · intro href h
    rw [NAV_eq] at h
    exact targets_manifest Seiten href h

end templates

/-! ## Theorems: manifest and spine -/

namespace templates
open azdl

theorem lead_append (n : Nat) (l t : String) (h : n ≤ l.length) :
    lead n (l ++ t) = lead n l := by
  simp only [lead, String.toList, String.data_append]
  exact List.take_append_of_le_length h

theorem append_inner_cancel (l r a b : String) (h : l ++ a ++ r = l ++ b ++ r) : a = b := by
  have hd := congrArg String.data h
  simp only [String.data_append] at hd
  exact String.ext (List.append_cancel_left (List.append_cancel_right hd))

theorem spine_lead (Seiten : List seite) (x : String) (hx : x ∈ ContentOPF.spine Seiten) :
    lead 6 x ∈ spineLeads := by
  unfold ContentOPF.spine at hx
  simp only [List.mem_append, List.mem_cons, List.mem_singleton, List.not_mem_nil, or_false,
    List.mem_flatMap] at hx
  rcases hx with ((rfl | rfl) | ⟨s, _, hs⟩) | rfl
  · decide
  · decide
  · rcases List.mem_cons.1 hs with rfl | hs
    · rw [lead_append 6 "seite_" _ (by decide)]; decide
    · obtain ⟨e, _, rfl⟩ := List.mem_map.1 hs
      rw [String.append_assoc, String.append_assoc, lead_append 6 "article_" _ (by decide)]
      decide
  · decide

theorem count_pictureItems (x : String) (hx : lead 6 x ∈ spineLeads) (e : element) :
    List.count x ((ContentOPF.pictureItems e).map item.id) = 0 := by
  rw [List.count_eq_zero]
  intro hmem
  simp only [ContentOPF.pictureItems, List.map_map, List.mem_map, Function.comp] at hmem
  obtain ⟨p, _, rfl⟩ := hmem
  rw [lead_append 6 "image_" _ (by decide)] at hx
  revert hx
  decide

theorem count_articleItems (x : String) (hx : lead 6 x ∈ spineLeads) (pgidx : Int)
    (es : List element) :
    List.count x ((es.flatMap (ContentOPF.articleItems pgidx)).map item.id) =
      List.count x (es.map (fun e => "article_" ++ Itoa pgidx ++ "_" ++ e.ID)) := by
  induction es with
  | nil => simp
  | cons e es ih =>
    simp only [List.flatMap_cons, List.map_append, List.count_append, ih, List.map_cons,
      ContentOPF.articleItems, List.count_cons, count_pictureItems x hx e]
    omega

theorem count_seiteItems (x : String) (hx : lead 6 x ∈ spineLeads) (Seiten : List seite) :
    List.count x ((Seiten.flatMap ContentOPF.seiteItems).map item.id) =
      List.count x (Seiten.flatMap ContentOPF.seiteRefs) := by
  induction Seiten with
  | nil => simp
  | cons s ss ih =>
    simp only [List.flatMap_cons, List.map_append, List.count_append, ih,
      ContentOPF.seiteItems, ContentOPF.seiteRefs, List.map_cons, List.count_cons,
      count_articleItems x hx]

theorem count_manifest (x : String) (hx : lead 6 x ∈ spineLeads) (Seiten : List seite) :
    List.count x ((ContentOPF.manifest Seiten).map item.id) =
      List.count x (ContentOPF.spine Seiten) := by
  have h1 : x ≠ "ncx" := by rintro rfl; revert hx; decide
  have h2 : x ≠ "navigation" := by rintro rfl; revert hx; decide
  have h3 : x ≠ "titleImage" := by rintro rfl; revert hx; decide
  have h4 : x ≠ "epub-stylesheet" := by rintro rfl; revert hx; decide
  simp only [ContentOPF.manifest, ContentOPF.spine, List.map_append, List.count_append,
    count_seiteItems x hx, List.map_cons, List.map_nil, List.count_cons, List.count_nil,
    beq_iff_eq, h1.symm, h2.symm, h3.symm, h4.symm, if_false]
  omega

/-- C7, as stated, fails: the walk of the page `A`, `B`, `C` stops at `A`, the
two other slots of the Sequence keep the zero element, and the idref
`article_0_` of the spine is the id of two manifest items. -/
theorem spine_idref_twice_in_manifest :
    createAzanEpub srvLoose "latest" = Outcome.done [seiteLoose] ∧
      "article_0_" ∈ ContentOPF.spine [seiteLoose] ∧
      List.count "article_0_" ((ContentOPF.manifest [seiteLoose]).map item.id) = 2 := by
  decide

/-- C7, amended. Spine/manifest consistency: every idref of the spine is the id
of at least one manifest item, and of exactly as many manifest items as the
idref has occurrences in the spine (of exactly one when it occurs once). -/
theorem spine_in_manifest (Seiten : List seite) (idref : String)
    (h : idref ∈ ContentOPF.spine Seiten) :
    1 ≤ List.count idref ((ContentOPF.manifest Seiten).map item.id) ∧
      List.count idref ((ContentOPF.manifest Seiten).map item.id) =
        List.count idref (ContentOPF.spine Seiten) := by
  have hc := count_manifest idref (spine_lead Seiten idref h) Seiten
  refine ⟨?_, hc⟩
  rw [hc]
  exact List.count_pos_iff.2 h

/-- In the issue of the page `A`, `B`, `C` the idref `article_0_A` occurs once
in the spine and is the id of one manifest item. -/
theorem spine_in_manifest_witness :
    List.count "article_0_A" (ContentOPF.spine [seiteLoose]) = 1 ∧
      1 ≤ List.count "article_0_A" ((ContentOPF.manifest [seiteLoose]).map item.id) ∧
      List.count "article_0_A" ((ContentOPF.manifest [seiteLoose]).map item.id) =
        List.count "article_0_A" (ContentOPF.spine [seiteLoose]) :=
  ⟨by decide, spine_in_manifest [seiteLoose] "article_0_A" (by decide)⟩

end templates

namespace templates
open azdl

theorem href_not_image (l t id : String) (hl : 3 ≤ l.length) (hne : lead 3 l ≠ lead 3 "images/")
    (h : l ++ t = "images/" ++ id ++ ".jpg") : False := by
  have h2 := congrArg (lead 3) h
  rw [String.append_assoc, lead_append 3 l _ hl, lead_append 3 "images/" _ (by decide)] at h2
  exact hne h2

theorem seiteItems_image (s : seite) (it : item) (hit : it ∈ ContentOPF.seiteItems s)
    (id : String) (h : it.href = "images/" ++ id ++ ".jpg") :
    ∃ e ∈ s.Sequence, ∃ p ∈ e.Pictures, p.ID = id ∧ p.Size ≠ 0 := by
  rcases List.mem_cons.1 hit with rfl | hit
  · exact (href_not_image "seite_" _ id (by decide) (by decide)
      (by rw [← String.append_assoc]; exact h)).elim
  · obtain ⟨e, he, hit⟩ := List.mem_flatMap.1 hit
    rcases List.mem_cons.1 hit with rfl | hit
    · exact (href_not_image "article_" _ id (by decide) (by decide)
        (by rw [← String.append_assoc]; exact h)).elim
    · obtain ⟨p, hp, rfl⟩ := List.mem_map.1 hit
      rw [List.mem_filter] at hp
      exact ⟨e, he, p, hp.1, append_inner_cancel _ _ _ _ h, by simpa using hp.2⟩

/-- C9, as stated, fails: the picture `p1` of the fetched article `B` has the
observed size 7, yet the manifest has no item for `images/p1.jpg`, because the
walk stops at `A` and `B` is not in the Sequence. -/
theorem fetched_picture_not_in_manifest :
    createAzanEpub srvLoose "latest" = Outcome.done [seiteLoose] ∧
      fetchPictures srvLoose "20200820/0"
          (artikelOf srvLoose "20200820/0" { ID := "B", Type_ := "article" }).Pictures =
        [{ ID := "p1", Size := 7 }] ∧
      ∀ it ∈ ContentOPF.manifest [seiteLoose], it.href ≠ "images/p1.jpg" := by
  decide

/-- C9, amended. Picture inclusion gate: every picture with a nonzero observed
size of an element of a page's Sequence has its item `images/<id>.jpg` in the
manifest; and every manifest item for `images/<id>.jpg`, the fixed title
image apart, belongs to a picture with that id and a nonzero size of an element
of some page's Sequence, so that a picture of size 0 adds no item. -/
theorem picture_gate (Seiten : List seite) :
    (∀ s ∈ Seiten, ∀ e ∈ s.Sequence, ∀ p ∈ e.Pictures, p.Size ≠ 0 →
        (⟨"images/" ++ p.ID ++ ".jpg", "image_" ++ p.ID, "image/jpeg"⟩ : item) ∈
          ContentOPF.manifest Seiten) ∧
      ∀ it ∈ ContentOPF.manifest Seiten, ∀ id : String, it.href = "images/" ++ id ++ ".jpg" →
        it.id = "titleImage" ∨
          ∃ s ∈ Seiten, ∃ e ∈ s.Sequence, ∃ p ∈ e.Pictures, p.ID = id ∧ p.Size ≠ 0 := by
  constructor
  · intro s hs e he p hp hsize
    unfold ContentOPF.manifest
    apply List.mem_append_left
    apply List.mem_append_right
    refine List.mem_flatMap.2 ⟨s, hs, List.mem_cons_of_mem _ (List.mem_flatMap.2 ⟨e, he, ?_⟩)⟩
    apply List.mem_cons_of_mem
    exact List.mem_map.2 ⟨p, List.mem_filter.2 ⟨hp, by simpa using hsize⟩, rfl⟩
  · intro it hit id h
    unfold ContentOPF.manifest at hit
    rcases List.mem_append.1 hit with hit | hit
    · rcases List.mem_append.1 hit with hit | hit
      · simp only [List.mem_cons, List.mem_singleton, List.not_mem_nil, or_false] at hit
        rcases hit with rfl | rfl | rfl
        · exact (href_not_image "toc.ncx" "" id (by decide) (by decide) h).elim
        · exact (href_not_image "title.xhtml" "" id (by decide) (by decide) h).elim
        · exact (href_not_image "index.xhtml" "" id (by decide) (by decide) h).elim
      · obtain ⟨s, hs, hit⟩ := List.mem_flatMap.1 hit
        obtain ⟨e, he, p, hp, h1, h2⟩ := seiteItems_image s it hit id h
        exact Or.inr ⟨s, hs, e, he, p, hp, h1, h2⟩
    · simp only [List.mem_cons, List.mem_singleton, List.not_mem_nil, or_false] at hit
      rcases hit with rfl | rfl | rfl | rfl
      · exact (href_not_image "navigation.xhtml" "" id (by decide) (by decide) h).elim
      · exact (href_not_image "impressum.xhtml" "" id (by decide) (by decide) h).elim
      · exact Or.inl rfl
      · exact (href_not_image "zva.epub.css" "" id (by decide) (by decide) h).elim

/-- The article `A` with the picture `p1` of 7 bytes and the picture `p2` of 0
bytes: the manifest has the item of `p1` and no item for `images/p2.jpg`. -/
theorem picture_gate_witness :
    createAzanEpub srvPictures "latest" = Outcome.done [seitePictures] ∧
      (∀ it ∈ ContentOPF.manifest [seitePictures], it.href ≠ "images/p2.jpg") ∧
      (⟨"images/" ++ "p1" ++ ".jpg", "image_" ++ "p1", "image/jpeg"⟩ : item) ∈
        ContentOPF.manifest [seitePictures] :=
  ⟨by decide, by decide,
    (picture_gate [seitePictures]).1 seitePictures (by decide) elementPictures (by decide)
      { ID := "p1", Size := 7 } (by decide) (by decide)⟩

/-- The content src `article_A.xhtml` of the NCX document of the issue of
`srvPictures` is the href of a manifest item. -/
theorem navigation_targets_in_manifest_witness :
    "article_A.xhtml" ∈ contentSrcs (ToC [seitePictures]) ∧
      ∃ it ∈ ContentOPF.manifest [seitePictures], it.href = "article_A.xhtml" :=
  ⟨by decide, (navigation_targets_in_manifest [seitePictures]).1 "article_A.xhtml" (by decide)⟩

end templates

/-! ## Theorems: the alternative title -/

namespace templates

theorem lookup_new_ne_nil (oldnew : List (String × String)) (h : ∀ p ∈ oldnew, p.2 ≠ "") :
    ∀ (s repl after : List Char), lookup oldnew s = some (repl, after) → repl ≠ [] := by
  induction oldnew with
  | nil => intro s repl after hl; simp [lookup] at hl
  | cons p more ih =>
    intro s repl after hl
    obtain ⟨old, new⟩ := p
    unfold lookup at hl
    split at hl
    · simp only [Option.some.injEq, Prod.mk.injEq] at hl
      rw [← hl.1]
      intro hnil
      apply h (old, new) (List.mem_cons_self _ _)
      show new = ""
      cases new with
      | mk data => simp only [String.toList] at hnil; rw [hnil]
    · exact ih (fun q hq => h q (List.mem_cons_of_mem _ hq)) s repl after hl

/-- A replacer whose new strings are non-empty keeps a non-empty string non-empty. -/
theorem Replace_ne_empty (oldnew : List (String × String)) (h : ∀ p ∈ oldnew, p.2 ≠ "")
    (s : String) (hs : s ≠ "") : Replace oldnew s ≠ "" := by
  cases s with
  | mk data =>
    cases data with
    | nil => exact absurd rfl hs
    | cons c rest =>
      intro hr
      have hd := congrArg String.data hr
      simp only [Replace, String.length, String.toList, List.length_cons] at hd
      unfold ReplaceAllString at hd
      split at hd
      · rename_i repl after hl
        have := lookup_new_ne_nil oldnew h _ _ _ hl
        simp only [List.append_eq_nil] at hd
        exact this hd.1
      · simp at hd

theorem Shorten_ne_nil (txt : List Char) : Shorten txt ≠ [] := by
  simp [Shorten]

end templates

namespace azdl

theorem shortenIfLong_eq_empty (txt : String) : shortenIfLong txt = "" ↔ txt = "" := by
  unfold shortenIfLong
  split
  · rename_i hlen
    constructor
    · intro h
      exact absurd (congrArg String.data h) (templates.Shorten_ne_nil _)
    · intro h
      rw [h] at hlen
      exact absurd hlen (by decide)
  · exact Iff.rfl

theorem bildname_ne_empty (w h : Int) :
    templates.Bildnamen ("Bild " ++ Itoa w ++ " × " ++ Itoa h) ≠ "" := by
  apply templates.Replace_ne_empty
  · decide
  · intro he
    have hd := congrArg String.data he
    simp only [String.data_append] at hd
    have : "Bild ".data ≠ [] := by decide
    simp [this] at hd

/-- C10, as stated, fails: an untitled article whose body is the empty
paragraph `<p></p>` gets the empty string as its derived title. -/
theorem empty_title_example : cheapExerpt { Title := "", Text := "<p></p>" } = "" := by
  decide

/-- C10, amended. The derived title is empty exactly when the article has no
title and the text that is stripped (the body, or with an empty body the
non-empty description of the first picture) is non-empty but nothing of it is
left after the stripping; for every other article `cheapExerpt` returns a
non-empty string. -/
theorem cheapExerpt_eq_empty_iff (artikel : article) :
    cheapExerpt artikel = "" ↔
      artikel.Title = "" ∧
        ((artikel.Text ≠ "" ∧ strip artikel.Text = "") ∨
          (artikel.Text = "" ∧ ∃ first rest, artikel.Pictures = first :: rest ∧
            first.Description ≠ "" ∧ strip first.Description = "")) := by
  unfold cheapExerpt
  by_cases ht : artikel.Title = ""
  · by_cases hx : artikel.Text = ""
    · cases hp : artikel.Pictures with
      | nil =>
        simp only [ht, hx, ne_eq, not_true_eq_false, if_false, if_true, true_and, false_and,
          false_or, reduceCtorEq, exists_false]
        decide
      | cons first rest =>
        simp only [ht, hx, ne_eq, not_true_eq_false, if_false, if_true, true_and, false_and,
          false_or]
        by_cases hd : first.Description = ""
        · simp only [hd, if_true]
          constructor
          · intro h; exact absurd h (bildname_ne_empty _ _)
          · rintro ⟨f, r, heq, hne, _⟩
            injection heq with h1 h2
            subst h1
            exact absurd hd hne
        · simp only [hd, if_false, shortenIfLong_eq_empty]
          constructor
          · intro h; exact ⟨first, rest, rfl, hd, h⟩
          · rintro ⟨f, r, heq, _, h⟩
            injection heq with h1 h2
            subst h1
            exact h
    · simp [ht, hx, shortenIfLong_eq_empty]
  · simp [ht]

end azdl

/-! ## Theorems: shortening, sanitizing and the dimension fallback -/

namespace azdl

/-- A stripped text of at most 40 bytes is the derived title of an untitled
article with a body. -/
theorem short_bytes_untouched (artikel : article) (ht : artikel.Title = "")
    (hx : artikel.Text ≠ "") (hl : len (strip artikel.Text) ≤ 40) :
    cheapExerpt artikel = strip artikel.Text := by
  have h : ¬ len (strip artikel.Text) > 40 := by omega
  simp [cheapExerpt, ht, hx, shortenIfLong, h]

/-- C11. The stripped text has 41 characters, its first 38 end a word, a blank
and two letters follow. `Shorten` keeps 40 characters and the rest of the
word they end in: the derived title is all 41 characters and the ellipsis, not
the first 38 characters and the ellipsis. -/
theorem shorten_keeps_41 :
    strip "<p>Der Rat der Stadt beschliesst den Plan ab</p>" =
        "Der Rat der Stadt beschliesst den Plan ab" ∧
      "Der Rat der Stadt beschliesst den Plan ab".length = 41 ∧
      "Der Rat der Stadt beschliesst den Plan".length = 38 ∧
      cheapExerpt { Title := "", Text := "<p>Der Rat der Stadt beschliesst den Plan ab</p>" } =
        "Der Rat der Stadt beschliesst den Plan ab…" ∧
      cheapExerpt { Title := "", Text := "<p>Der Rat der Stadt beschliesst den Plan ab</p>" } ≠
        "Der Rat der Stadt beschliesst den Plan…" := by
  decide

/-- C12. The stripped text has 40 characters, three of them umlauts, and so 43
bytes: `len(txt) > 40` holds and the derived title is the text with an ellipsis
appended, not the text itself. -/
theorem short_text_gets_ellipsis :
    strip "<p>Die Stadt Aachen baut für Bürger Brücken</p>" =
        "Die Stadt Aachen baut für Bürger Brücken" ∧
      "Die Stadt Aachen baut für Bürger Brücken".length = 40 ∧
      len "Die Stadt Aachen baut für Bürger Brücken" = 43 ∧
      cheapExerpt { Title := "", Text := "<p>Die Stadt Aachen baut für Bürger Brücken</p>" } =
        "Die Stadt Aachen baut für Bürger Brücken…" := by
  decide

/-- C13. Title derivation priority: an article with a non-empty title has that
title as its derived title, whatever its body and pictures are. -/
theorem explicit_title_wins (artikel : article) (h : artikel.Title ≠ "") :
    cheapExerpt artikel = artikel.Title := by
  simp [cheapExerpt, h]

/-- The example of the specification: title `Foo` and an empty body give `Foo`. -/
theorem explicit_title_wins_witness :
    ("Foo" : String) ≠ "" ∧ cheapExerpt { Title := "Foo", Text := "" } = "Foo" :=
  ⟨by decide, explicit_title_wins { Title := "Foo", Text := "" } (by decide)⟩

/-- C14. The line-break step of `clean` replaces `<br>` by group 1 of `MTbr`,
the two letters `br`, not by `<br />`: whatever the location-mark step then
does, it gets the text with the tag lost. -/
theorem br_loses_its_brackets :
    templates.MTbr "Zeile 1<br>Zeile 2".toList = "Zeile 1brZeile 2".toList ∧
      templates.MTbr "Zeile 1<br>Zeile 2".toList ≠ "Zeile 1<br />Zeile 2".toList ∧
      ∀ Ortsmarke : String → String,
        (clean Ortsmarke { Text := "Zeile 1<br>Zeile 2" }).Text = Ortsmarke "Zeile 1brZeile 2" := by
  refine ⟨by decide, by decide, ?_⟩
  intro Ortsmarke
  have h : String.mk (templates.MTbr (templates.NoLinkTarget "Zeile 1<br>Zeile 2".toList)) =
      "Zeile 1brZeile 2" := by decide
  show Ortsmarke _ = Ortsmarke _
  rw [h]

/-- With an empty title, an empty body and a first picture without description
the derived title is made of the width and the height of the article. -/
theorem dimension_fallback (artikel : article) (first : picture) (rest : List picture)
    (ht : artikel.Title = "") (hx : artikel.Text = "") (hp : artikel.Pictures = first :: rest)
    (hd : first.Description = "") :
    cheapExerpt artikel =
      templates.Bildnamen ("Bild " ++ Itoa artikel.Width ++ " × " ++ Itoa artikel.Height) := by
  simp [cheapExerpt, ht, hx, hp, hd]

/-- C15. The article is 1024 wide and 788 high, its first picture 600 by 429:
the synthesized title is the name of 1024 x 788, and nothing of 600 x 429; with
the numbers exchanged it is the generic string of the article's 600 x 429. -/
theorem dimension_fallback_uses_article :
    cheapExerpt { Width := 1024, Height := 788, Pictures := [{ Width := 600, Height := 429 }] } =
        "Wetter" ∧
      cheapExerpt { Width := 600, Height := 429, Pictures := [{ Width := 1024, Height := 788 }] } =
        "Bild 600 × 429" := by
  decide

/-- C16. The eight known pairs give their names; the pair 1024 x 4600 is not
one of them, yet its title is not `Bild 1024 × 4600` but `DAX0`: the replacer
rewrites the known `Bild 1024 × 460` at the start of the string. -/
theorem unknown_dimension_partly_replaced :
    (cheapExerpt { Width := 296, Height := 591, Pictures := [{}] } = "Festgeld" ∧
      cheapExerpt { Width := 1024, Height := 460, Pictures := [{}] } = "DAX" ∧
      cheapExerpt { Width := 1024, Height := 360, Pictures := [{}] } = "Rätsel Ecke" ∧
      cheapExerpt { Width := 1024, Height := 361, Pictures := [{}] } = "Rätsel Ecke" ∧
      cheapExerpt { Width := 1024, Height := 388, Pictures := [{}] } = "Popel" ∧
      cheapExerpt { Width := 1024, Height := 788, Pictures := [{}] } = "Wetter" ∧
      cheapExerpt { Width := 361, Height := 818, Pictures := [{}] } = "Kinder-Sudoku" ∧
      cheapExerpt { Width := 1024, Height := 411, Pictures := [{}] } = "Finde die Unterschiede") ∧
      cheapExerpt { Width := 1024, Height := 4600, Pictures := [{}] } = "DAX0" ∧
      cheapExerpt { Width := 1024, Height := 4600, Pictures := [{}] } ≠ "Bild 1024 × 4600" := by
  decide

end azdl

/-! ## Theorems: next links and the bounds of the walk -/

namespace azdl

theorem elementStep_relinkNext (srv : Server) (f : String → paper) (url : String)
    (v : PageVars) (idx : Nat) (e : element) :
    elementStep (relinkNext srv f) url v idx e = elementStep srv url v idx e := by
  by_cases h : e.Type_ = "article"
  · simp [elementStep, h, relinkNext, cheapExerpt, isFirst, fetchPictures]
  · simp [elementStep, h]

theorem elementLoop_relinkNext (srv : Server) (f : String → paper) (url : String)
    (es : List element) :
    ∀ (v : PageVars) (idx : Nat),
      elementLoop (relinkNext srv f) url v idx es = elementLoop srv url v idx es := by
  induction es with
  | nil => intro v idx; rfl
  | cons e es ih =>
    intro v idx
    rw [elementLoop, elementLoop, elementStep_relinkNext, ih]

/-- Where the walk is at a position: it ends there when the next-id of the
position is empty or not a key of the map, and goes on to the position the map
gives otherwise. -/
theorem follows_at (v : PageVars) (ps : List Nat) :
    ∀ (art i p : Nat), follows v art ps → ps[i]? = some p →
      ((v.nextID p = "" ∨ mapLookup v.id2idx (v.nextID p) = none) → i + 1 = ps.length) ∧
      ∀ q, v.nextID p ≠ "" → mapLookup v.id2idx (v.nextID p) = some q → ps[i + 1]? = some q := by
  induction ps with
  | nil => intro art i p h; exact absurd h (by simp [follows])
  | cons a ps ih =>
    intro art i p h hp
    have ha := follows_head v art a ps h
    subst ha
    by_cases hs : v.nextID a = "" ∨ mapLookup v.id2idx (v.nextID a) = none
    · have h1 := (follows_stop v a _ hs).1 h
      injection h1 with _ h1
      subst h1
      cases i with
      | zero =>
        simp only [List.getElem?_cons_zero, Option.some.injEq] at hp
        subst hp
        refine ⟨fun _ => rfl, ?_⟩
        intro q hne hq
        rcases hs with hs | hs
        · exact absurd hs hne
        · rw [hs] at hq; cases hq
      | succ i => simp at hp
    · have hne : v.nextID a ≠ "" := fun hn => hs (Or.inl hn)
      cases hl : mapLookup v.id2idx (v.nextID a) with
      | none => exact absurd (Or.inr hl) hs
      | some next =>
        obtain ⟨qs, hq, hf⟩ := (follows_step v a next _ hne hl).1 h
        injection hq with _ hq
        subst hq
        cases i with
        | zero =>
          simp only [List.getElem?_cons_zero, Option.some.injEq] at hp
          subst hp
          constructor
          · intro hstop; exact absurd hstop hs
          · intro q _ hq
            rw [hl] at hq
            injection hq with hq
            subst hq
            cases ps with
            | nil => exact absurd hf (by simp [follows])
            | cons b ps =>
              have hb := follows_head v _ b ps hf
              simp [hb]
        | succ i =>
          simp only [List.getElem?_cons_succ] at hp
          obtain ⟨h1, h2⟩ := ih next i p hf hp
          refine ⟨fun hstop => by simp only [List.length_cons]; have := h1 hstop; omega, ?_⟩
          intro q hn hq
          simpa using h2 q hn hq

/-- C17, as stated, fails: the next link of `A` carries the page index 1, `A`
itself the page index 0; the link's id `B` is the id of an article of the page,
and the walk follows it: the Sequence is `[A, B]`. -/
theorem cross_page_link_followed :
    (artikelOf srvCrossPage "20200820/0" { ID := "A", Type_ := "article" }).Next.Paper.Page.Index = 1 ∧
      (artikelOf srvCrossPage "20200820/0" { ID := "A", Type_ := "article" }).Paper.Page.Index = 0 ∧
      resolveSequence (pageVars srvCrossPage "20200820/0" pageAB.Elements) =
        Outcome.done [{ ID := "A", Type_ := "article", AltTitle := "a" },
                      { ID := "B", Type_ := "article", AltTitle := "b" }] := by
  decide

/-- C17, amended. The walk decides by the id of the next link alone: replacing
the paper (and so the page index) of every next link changes nothing of what
the loop over the elements records, and at every visited article the walk
stops when its next-id is empty or not the id of an article of the page and
goes on to the article with that id otherwise. -/
theorem next_link_decided_by_id (srv : Server) (f : String → paper) (url : String)
    (Elements : List element) :
    pageVars (relinkNext srv f) url Elements = pageVars srv url Elements ∧
      ∀ (head : Nat) (S : List element),
        (pageVars srv url Elements).ersterArtikel = (head : Int) →
        resolveSequence (pageVars srv url Elements) = Outcome.done S →
        ∃ ps, follows (pageVars srv url Elements) head ps ∧
          S = ps.map (pageVars srv url Elements).elementAt ++
            List.replicate ((pageVars srv url Elements).id2idx.length - ps.length) default ∧
          ∀ (i p : Nat), ps[i]? = some p →
            (((pageVars srv url Elements).nextID p = "" ∨
                mapLookup (pageVars srv url Elements).id2idx
                  ((pageVars srv url Elements).nextID p) = none) → i + 1 = ps.length) ∧
            ∀ q, (pageVars srv url Elements).nextID p ≠ "" →
              mapLookup (pageVars srv url Elements).id2idx
                ((pageVars srv url Elements).nextID p) = some q → ps[i + 1]? = some q := by
  constructor
  · unfold pageVars
    exact elementLoop_relinkNext srv f url Elements _ 0
  · intro head S hhead hS
    have hv := pageVars_valid srv url Elements
    have hlt : head < (pageVars srv url Elements).Elements.length := by
      have := hv.2.2
      rw [hhead] at this
      exact_mod_cast this
    have hn2 : ¬ (head : Int) < 0 := by omega
    unfold resolveSequence at hS
    simp only [hhead, hn2, if_false, Int.toNat_ofNat] at hS
    rw [walk_done_iff _ hv _ _ _ _ _ hlt (Nat.zero_le _) (by simp)] at hS
    obtain ⟨ps, hf, _, hS⟩ := hS
    refine ⟨ps, hf, ?_, fun i p hp => follows_at _ ps head i p hf hp⟩
    simpa [List.drop_replicate] using hS

/-- On the page of `srvCrossPage` the page index of the next links is of no
consequence, and the walk goes from `A` at position 0 on to `B` at position 1. -/
theorem next_link_decided_by_id_witness :
    pageVars (relinkNext srvCrossPage (fun _ => {})) "20200820/0" pageAB.Elements =
        pageVars srvCrossPage "20200820/0" pageAB.Elements ∧
      ∃ ps, follows (pageVars srvCrossPage "20200820/0" pageAB.Elements) 0 ps ∧
        [{ ID := "A", Type_ := "article", AltTitle := "a" },
          { ID := "B", Type_ := "article", AltTitle := "b" }] =
          ps.map (pageVars srvCrossPage "20200820/0" pageAB.Elements).elementAt ++
            List.replicate
              ((pageVars srvCrossPage "20200820/0" pageAB.Elements).id2idx.length - ps.length)
              default ∧
        ∀ (i p : Nat), ps[i]? = some p →
          (((pageVars srvCrossPage "20200820/0" pageAB.Elements).nextID p = "" ∨
              mapLookup (pageVars srvCrossPage "20200820/0" pageAB.Elements).id2idx
                ((pageVars srvCrossPage "20200820/0" pageAB.Elements).nextID p) = none) →
            i + 1 = ps.length) ∧
          ∀ q, (pageVars srvCrossPage "20200820/0" pageAB.Elements).nextID p ≠ "" →
            mapLookup (pageVars srvCrossPage "20200820/0" pageAB.Elements).id2idx
              ((pageVars srvCrossPage "20200820/0" pageAB.Elements).nextID p) = some q →
            ps[i + 1]? = some q :=
  ⟨(next_link_decided_by_id srvCrossPage (fun _ => {}) "20200820/0" pageAB.Elements).1,
    (next_link_decided_by_id srvCrossPage (fun _ => {}) "20200820/0" pageAB.Elements).2 0 _
      (by decide) (by decide)⟩

end azdl

namespace azdl

theorem mapLookup_mem_values (m : List (String × Nat)) (k : String) (j : Nat)
    (h : mapLookup m k = some j) : j ∈ m.map Prod.snd := by
  induction m with
  | nil => simp [mapLookup] at h
  | cons kv m ih =>
    obtain ⟨k0, v0⟩ := kv
    unfold mapLookup at h
    split at h
    · injection h with h; simp [h]
    · simp [ih h]

/-- An id that no later article has keeps its entry in `id2idx`. -/
theorem elementLoop_lookup_not_mem (srv : Server) (url : String) (es : List element) :
    ∀ (v : PageVars) (idx : Nat) (k : String), k ∉ articleIDs srv url es →
      mapLookup (elementLoop srv url v idx es).id2idx k = mapLookup v.id2idx k := by
  induction es with
  | nil => intro v idx k _; rfl
  | cons e es ih =>
    intro v idx k hk
    rw [elementLoop]
    by_cases h : e.Type_ = "article"
    · have hk2 : k ≠ (artikelOf srv url e).ID ∧ k ∉ articleIDs srv url es := by
        simpa [articleIDs, List.filter_cons, h] using hk
      rw [ih _ _ _ hk2.2, elementStep_article srv url v idx e h]
      simp only [mapLookup_mapAssign]
      rw [if_neg (fun hh => hk2.1 hh.symm)]
    · have hk2 : k ∉ articleIDs srv url es := by
        simpa [articleIDs, List.filter_cons, h] using hk
      rw [ih _ _ _ hk2, elementStep_other srv url v idx e h]

theorem articleIDs_cons_nodup (srv : Server) (url : String) (e : element) (es : List element)
    (h : (articleIDs srv url (e :: es)).Nodup) :
    (articleIDs srv url es).Nodup ∧
      (e.Type_ = "article" → (artikelOf srv url e).ID ∉ articleIDs srv url es) := by
  by_cases he : e.Type_ = "article"
  · have h2 : ((artikelOf srv url e).ID :: articleIDs srv url es).Nodup := by
      simpa [articleIDs, List.filter_cons, he] using h
    rw [List.nodup_cons] at h2
    exact ⟨h2.2, fun _ => h2.1⟩
  · have h2 : (articleIDs srv url es).Nodup := by
      simpa [articleIDs, List.filter_cons, he] using h
    exact ⟨h2, fun hh => absurd hh he⟩

/-- With pairwise distinct article ids, `id2idx` maps the id of every article
to the position of its element. -/
theorem elementLoop_lookup_own (srv : Server) (url : String) (es : List element) :
    ∀ (v : PageVars) (idx : Nat), (articleIDs srv url es).Nodup →
      ∀ (j : Nat) (e : element), es[j]? = some e → e.Type_ = "article" →
        mapLookup (elementLoop srv url v idx es).id2idx (artikelOf srv url e).ID =
          some (idx + j) := by
  induction es with
  | nil => intro v idx _ j e hj; simp at hj
  | cons e0 es ih =>
    intro v idx hnd j e hj he
    obtain ⟨hnd2, hfresh⟩ := articleIDs_cons_nodup srv url e0 es hnd
    rw [elementLoop]
    cases j with
    | zero =>
      simp only [List.getElem?_cons_zero, Option.some.injEq] at hj
      subst hj
      rw [elementLoop_lookup_not_mem srv url es _ _ _ (hfresh he),
        elementStep_article srv url v idx e0 he]
      simp [mapLookup_mapAssign]
    | succ j =>
      simp only [List.getElem?_cons_succ] at hj
      rw [ih _ (idx + 1) hnd2 j e hj he]
      congr 1
      omega

/-- Every entry of `id2idx` is the id and the position of an article-typed element. -/
theorem elementLoop_lookup_sound (srv : Server) (url : String) (es : List element) :
    ∀ (v : PageVars) (idx : Nat) (k : String) (j : Nat),
      mapLookup (elementLoop srv url v idx es).id2idx k = some j →
      mapLookup v.id2idx k = some j ∨
        ∃ (i : Nat) (e : element), j = idx + i ∧ es[i]? = some e ∧ e.Type_ = "article" ∧
          (artikelOf srv url e).ID = k := by
  induction es with
  | nil => intro v idx k j h; exact Or.inl h
  | cons e0 es ih =>
    intro v idx k j h
    rw [elementLoop] at h
    rcases ih _ _ _ _ h with h1 | ⟨i, e, hj, hi, he, hk⟩
    · by_cases h0 : e0.Type_ = "article"
      · rw [elementStep_article srv url v idx e0 h0] at h1
        simp only [mapLookup_mapAssign] at h1
        split at h1
        · rename_i hk
          injection h1 with h1
          exact Or.inr ⟨0, e0, by omega, by simp, h0, hk⟩
        · exact Or.inl h1
      · rw [elementStep_other srv url v idx e0 h0] at h1
        exact Or.inl h1
    · exact Or.inr ⟨i + 1, e, by omega, by simpa using hi, he, hk⟩

/-- The loop over the elements assigns `AltTitle` and `Pictures` and keeps the ids. -/
theorem elementLoop_ids (srv : Server) (url : String) (es : List element) :
    ∀ (v : PageVars) (idx p : Nat),
      ((elementLoop srv url v idx es).Elements[p]?).map (fun e => e.ID) =
        (v.Elements[p]?).map (fun e => e.ID) := by
  induction es with
  | nil => intro v idx p; rfl
  | cons e0 es ih =>
    intro v idx p
    rw [elementLoop, ih]
    by_cases h0 : e0.Type_ = "article"
    · rw [elementStep_article srv url v idx e0 h0]
      simp only [List.getElem?_modify]
      cases v.Elements[p]? with
      | none => rfl
      | some x => by_cases hp : idx = p <;> simp [hp]
    · rw [elementStep_other srv url v idx e0 h0]

theorem path_head (v : PageVars) (art p : Nat) (ps : List Nat) (h : path v art (p :: ps)) :
    p = art := by
  cases ps with
  | nil => exact h
  | cons q ps => exact h.1

theorem path_cons (v : PageVars) (art next : Nat) (ps : List Nat)
    (h1 : v.nextID art ≠ "") (h2 : mapLookup v.id2idx (v.nextID art) = some next)
    (h : path v next ps) : path v art (art :: ps) := by
  cases ps with
  | nil => exact absurd h (by simp [path])
  | cons q ps =>
    have hq := path_head v next q ps h
    subst hq
    exact ⟨rfl, h1, h2, h⟩

theorem follows_path (v : PageVars) (ps : List Nat) :
    ∀ art, follows v art ps → path v art ps := by
  induction ps with
  | nil => intro art h; exact absurd h (by simp [follows])
  | cons p ps ih =>
    intro art h
    cases ps with
    | nil => exact h.1
    | cons q ps => exact ⟨h.1, h.2.1, h.2.2.1, ih q h.2.2.2⟩

/-- Every position of a beginning of the walk has a property that the start
has and that every position of the map has. -/
theorem path_all (v : PageVars) (Q : Nat → Prop)
    (hQ : ∀ k j, mapLookup v.id2idx k = some j → Q j) (ps : List Nat) :
    ∀ art, Q art → path v art ps → ∀ p ∈ ps, Q p := by
  induction ps with
  | nil => intro art _ h; exact absurd h (by simp [path])
  | cons a ps ih =>
    intro art hart h p hp
    have ha := path_head v art a ps h
    subst ha
    rcases List.mem_cons.1 hp with rfl | hp
    · exact hart
    · cases ps with
      | nil => simp at hp
      | cons q ps => exact ih q (hQ _ _ h.2.2.1) h.2.2.2 p hp

/-- The loop of the walk, with steps enough, returns a Sequence, or the walk
has a beginning that is one position longer than the slots from `i` on. -/
theorem walk_done_or_path (v : PageVars) (hv : v.valid) :
    ∀ (steps : Nat) (Seq : List element) (i art : Nat),
      art < v.Elements.length → i ≤ Seq.length → Seq.length + 1 ≤ steps + i →
      (∃ S, walk v.Elements v.idx2next v.id2idx steps Seq i art = Outcome.done S) ∨
        ∃ ps, path v art ps ∧ i + ps.length = Seq.length + 1 := by
  intro steps
  induction steps with
  | zero => intro Seq i art _ h1 h2; omega
  | succ steps ih =>
    intro Seq i art hart hi hsteps
    have hE : v.Elements[art]? = some (v.elementAt art) := by
      simp [PageVars.elementAt, List.getElem?_eq_getElem hart]
    have hN : v.idx2next[art]? = some (v.nextID art) := by
      have : art < v.idx2next.length := by rw [hv.1]; exact hart
      simp [PageVars.nextID, List.getElem?_eq_getElem this]
    by_cases hlt : i < Seq.length
    · by_cases hnext : v.nextID art = ""
      · exact Or.inl ⟨Seq.set i (v.elementAt art), by simp [walk, hlt, hE, hN, hnext]⟩
      · cases hl : mapLookup v.id2idx (v.nextID art) with
        | none =>
          exact Or.inl ⟨Seq.set i (v.elementAt art), by simp [walk, hlt, hE, hN, hnext, hl]⟩
        | some next =>
          have hw : walk v.Elements v.idx2next v.id2idx (steps + 1) Seq i art =
              walk v.Elements v.idx2next v.id2idx steps (Seq.set i (v.elementAt art)) (i + 1)
                next := by
            simp [walk, hlt, hE, hN, hnext, hl]
          have hlen : (Seq.set i (v.elementAt art)).length = Seq.length := by simp
          rw [hw]
          rcases ih (Seq.set i (v.elementAt art)) (i + 1) next (hv.2.1 _ _ hl)
            (by rw [hlen]; omega) (by rw [hlen]; omega) with h | ⟨ps, hp, hps⟩
          · exact Or.inl h
          · refine Or.inr ⟨art :: ps, path_cons v art next ps hnext hl hp, ?_⟩
            rw [hlen] at hps
            simp only [List.length_cons]
            omega
    · exact Or.inr ⟨[art], rfl, by simp only [List.length_singleton]; omega⟩

theorem pageVars_elementAt_ID (srv : Server) (url : String) (Elements : List element)
    (p : Nat) (e : element) (h : Elements[p]? = some e) :
    ((pageVars srv url Elements).elementAt p).ID = e.ID := by
  have h1 := elementLoop_ids srv url Elements
    { Elements := Elements, ersterArtikel := -1, id2idx := [],
      idx2next := List.replicate Elements.length "" } 0 p
  simp only [h, Option.map_some'] at h1
  unfold PageVars.elementAt pageVars
  cases hx : (elementLoop srv url
      { Elements := Elements, ersterArtikel := -1, id2idx := [],
        idx2next := List.replicate Elements.length "" } 0 Elements).Elements[p]? with
  | none => rw [hx] at h1; cases h1
  | some x =>
    rw [hx] at h1
    simpa using h1

/-- The chain page `[A(next=B), B(next=C)]`: every beginning of the walk from
position 0 is `[0]` or `[0, 1]`. -/
theorem srvChain_paths (ps : List Nat)
    (h : path (pageVars srvChain "20200820/0" pageAB.Elements) 0 ps) : ps.Nodup := by
  have h0 : mapLookup (pageVars srvChain "20200820/0" pageAB.Elements).id2idx
      ((pageVars srvChain "20200820/0" pageAB.Elements).nextID 0) = some 1 := by decide
  have h1 : mapLookup (pageVars srvChain "20200820/0" pageAB.Elements).id2idx
      ((pageVars srvChain "20200820/0" pageAB.Elements).nextID 1) = none := by decide
  rcases ps with _ | ⟨p, _ | ⟨q, _ | ⟨r, rest⟩⟩⟩
  · exact absurd h (by simp [path])
  · simp
  · obtain ⟨rfl, _, hq, _⟩ := h
    rw [h0] at hq
    injection hq with hq
    subst hq
    decide
  · obtain ⟨rfl, _, hq, h2⟩ := h
    rw [h0] at hq
    injection hq with hq
    subst hq
    obtain ⟨_, _, hr, _⟩ := h2
    rw [h1] at hr
    cases hr

/-- C18. Walk stays in bounds on well-formed input: on a page with a head whose
fetched article ids are pairwise distinct and on which no beginning of the walk
from the head visits a position twice, the resolver returns a Sequence; the
walk writes the slots `0, ..., k-1` with `k` at most the length of the
Sequence, and the elements it writes are pairwise distinct. -/
theorem walk_in_bounds (srv : Server) (url : String) (Elements : List element) (head : Nat)
    (hhead : (pageVars srv url Elements).ersterArtikel = (head : Int))
    (hids : (articleIDs srv url Elements).Nodup)
    (hnew : ∀ ps, path (pageVars srv url Elements) head ps → ps.Nodup) :
    ∃ S ps, resolveSequence (pageVars srv url Elements) = Outcome.done S ∧
      follows (pageVars srv url Elements) head ps ∧
      ps.length ≤ S.length ∧
      S = ps.map (pageVars srv url Elements).elementAt ++
        List.replicate (S.length - ps.length) default ∧
      (ps.map (pageVars srv url Elements).elementAt).Nodup := by
  have hv := pageVars_valid srv url Elements
  have hlt : head < (pageVars srv url Elements).Elements.length := by
    have := hv.2.2
    rw [hhead] at this
    exact_mod_cast this
  -- every position of the map and the head are positions of article-typed elements
  have hQ : ∀ k j, mapLookup (pageVars srv url Elements).id2idx k = some j →
      ∃ e, Elements[j]? = some e ∧ e.Type_ = "article" := by
    intro k j hj
    unfold pageVars at hj
    rcases elementLoop_lookup_sound srv url Elements _ 0 k j hj with h | ⟨i, e, hi, he, ht, _⟩
    · simp [mapLookup] at h
    · exact ⟨e, by rw [hi, Nat.zero_add]; exact he, ht⟩
  have hQhead : ∃ e, Elements[head]? = some e ∧ e.Type_ = "article" := by
    rcases pageVars_first srv url Elements with ⟨h1, _⟩ | ⟨h2, e, h3, h4, h5, _⟩
    · rw [hhead] at h1; omega
    · rw [hhead] at h3
      have : head = h2 := by exact_mod_cast h3
      subst this
      exact ⟨e, h4, h5.1⟩
  -- with distinct ids the map gives every article position for the id of its article
  have hown : ∀ p e, Elements[p]? = some e → e.Type_ = "article" →
      mapLookup (pageVars srv url Elements).id2idx (artikelOf srv url e).ID = some p := by
    intro p e hp he
    have := elementLoop_lookup_own srv url Elements
      { Elements := Elements, ersterArtikel := -1, id2idx := [],
        idx2next := List.replicate Elements.length "" } 0 hids p e hp he
    rw [Nat.zero_add] at this
    exact this
  -- a beginning of the walk is no longer than the map
  have hbound : ∀ ps, path (pageVars srv url Elements) head ps →
      ps.length ≤ (pageVars srv url Elements).id2idx.length := by
    intro ps hp
    have hall := path_all (pageVars srv url Elements) _ hQ ps head hQhead hp
    have hsub : ps ⊆ (pageVars srv url Elements).id2idx.map Prod.snd := by
      intro p hpm
      obtain ⟨e, he1, he2⟩ := hall p hpm
      exact mapLookup_mem_values _ _ _ (hown p e he1 he2)
    have := (List.subperm_of_subset (hnew ps hp) hsub).length_le
    simpa using this
  rcases walk_done_or_path _ hv ((pageVars srv url Elements).id2idx.length + 1)
      (List.replicate (pageVars srv url Elements).id2idx.length default) 0 head hlt
      (Nat.zero_le _) (by simp) with ⟨S, hS⟩ | ⟨ps, hp, hlen⟩
  · have hres : resolveSequence (pageVars srv url Elements) = Outcome.done S := by
      have hn2 : ¬ (head : Int) < 0 := by omega
      unfold resolveSequence
      simp only [hhead, hn2, if_false, Int.toNat_ofNat, List.length_replicate]
      exact hS
    have hSlen := resolveSequence_length _ _ hres
    rw [walk_done_iff _ hv _ _ _ _ _ hlt (Nat.zero_le _) (by simp)] at hS
    obtain ⟨ps, hf, hle, hSeq⟩ := hS
    have hp := follows_path _ ps head hf
    refine ⟨S, ps, hres, hf, ?_, ?_, ?_⟩
    · rw [hSlen]; simpa using hle
    · rw [hSlen]; simpa [List.drop_replicate] using hSeq
    · apply List.Nodup.map_on _ (hnew ps hp)
      intro x hx y hy hxy
      have hall := path_all (pageVars srv url Elements) _ hQ ps head hQhead hp
      obtain ⟨ex, hx1, hx2⟩ := hall x hx
      obtain ⟨ey, hy1, hy2⟩ := hall y hy
      have hid : ex.ID = ey.ID := by
        rw [← pageVars_elementAt_ID srv url Elements x ex hx1,
          ← pageVars_elementAt_ID srv url Elements y ey hy1, hxy]
      have hart : artikelOf srv url ex = artikelOf srv url ey := by
        unfold artikelOf; rw [hid]
      have h1 := hown x ex hx1 hx2
      have h2 := hown y ey hy1 hy2
      rw [hart, h2] at h1
      injection h1 with h1
      exact h1.symm
  · have := hbound ps hp
    simp only [List.length_replicate] at hlen
    omega

/-- The chain page `[A(next=B), B(next=C)]`: distinct ids, no position visited
twice; the walk writes the slots 0 and 1 of a Sequence of 2 slots. -/
theorem walk_in_bounds_witness :
    (articleIDs srvChain "20200820/0" pageAB.Elements).Nodup ∧
      ∃ S ps, resolveSequence (pageVars srvChain "20200820/0" pageAB.Elements) = Outcome.done S ∧
        follows (pageVars srvChain "20200820/0" pageAB.Elements) 0 ps ∧
        ps.length ≤ S.length ∧
        S = ps.map (pageVars srvChain "20200820/0" pageAB.Elements).elementAt ++
          List.replicate (S.length - ps.length) default ∧
        (ps.map (pageVars srvChain "20200820/0" pageAB.Elements).elementAt).Nodup :=
  ⟨by decide,
    walk_in_bounds srvChain "20200820/0" pageAB.Elements 0 (by decide) (by decide)
      srvChain_paths⟩

end azdl
